import Mathlib

/-!
Verification development for the gbln-cpp conversion engine.

The C++ sources embedded here are:
  src/conversion.cpp   (ffi_to_cpp, cpp_to_ffi, create_optimal_int, create_optimal_string)
  src/serialiser.cpp   (to_string, to_string_pretty)
  src/parser.cpp       (parse)
  src/io.cpp           (read_io, write_io)
  include/gbln/value.hpp            (Value)
  include/gbln/config.hpp           (Config, Config::validate)
  include/gbln/detail/managed_value.hpp (ManagedValue, ManagedString, ManagedConfig, ManagedKeys)
  include/gbln/detail/ffi.hpp       (GblnErrorCode, GblnValueType and the engine surface)

The foreign engine itself (libgbln) is an external collaborator reachable only
through the declarations of ffi.hpp; where its behaviour is needed it is
modelled from the specification and marked as such.
-/

namespace Gbln

/-! ## Error model

Mirrors include/gbln/exceptions.hpp (ParseError, ValidationError, IoError,
SerialiseError) plus std::invalid_argument thrown by the RAII wrappers.
Each constructor carries the message passed to the exception constructor
(the C++ classes prepend a fixed prefix such as "Parse error: " when
rendering; the raw message is what is stored here). -/
inductive GErr where
  | parseErr (msg : String)
  | validationErr (msg : String)
  | ioErr (msg : String)
  | serialiseErr (msg : String)
  | invalidArg (msg : String)
deriving DecidableEq, Repr

/-- C FFI error codes, from include/gbln/detail/ffi.hpp (GblnErrorCode). -/
inductive GCode where
  | ok
  | errUnexpectedChar
  | errUnterminatedString
  | errUnexpectedToken
  | errUnexpectedEof
  | errInvalidSyntax
  | errIntOutOfRange
  | errStringTooLong
  | errTypeMismatch
  | errInvalidTypeHint
  | errDuplicateKey
  | errNullPointer
  | errIo
deriving DecidableEq, Repr

/-! ## The foreign value model

Opaque 64-bit float payload.  The C++ code moves doubles across the boundary
without any arithmetic, so the payload is modelled as an abstract 64-bit
pattern that is merely copied.  An F32 foreign value is modelled by the
double it widens to (float to double widening is exact). -/
structure FloatBits where
  bits : Nat
deriving DecidableEq, Repr

/-- The 15-tag foreign value space of the external engine (GblnValueType in
ffi.hpp: I8..I64, U8..U64, F32, F64, Str, Bool, Null, Object, Array).
Modelled from the spec: scalar constructors store the constructed payload,
a string value stores the bytes received through the C-string boundary
together with the max_len capacity passed to gbln_value_new_str, an object
stores its entries in insertion order, an array its elements in push order. -/
inductive FValue where
  | fi8 (n : Int)
  | fi16 (n : Int)
  | fi32 (n : Int)
  | fi64 (n : Int)
  | fu8 (n : Nat)
  | fu16 (n : Nat)
  | fu32 (n : Nat)
  | fu64 (n : Nat)
  | ff32 (d : FloatBits)
  | ff64 (d : FloatBits)
  | fstr (s : List Nat) (maxLen : Nat)
  | fbool (b : Bool)
  | fnull
  | fobj (entries : List (List Nat × FValue))
  | farr (elems : List FValue)

/-! ## The C++ value model

include/gbln/value.hpp: std::variant over nullptr_t, bool, int64_t, double,
std::string, std::map<std::string, Value>, std::vector<Value>.  A std::string
is a byte sequence (List Nat); a std::map is represented by its entry list,
which std::map keeps strictly sorted by byte-wise lexicographic key order
(std::less<std::string>) with unique keys — that representation invariant is
made explicit by validValue below. -/
inductive Value where
  | vnull
  | vbool (b : Bool)
  | vint (n : Int)
  | vfloat (d : FloatBits)
  | vstr (s : List Nat)
  | vobj (entries : List (List Nat × Value))
  | varr (elems : List Value)

/-- The lead-byte dispatch of the scanning loop in create_optimal_string
(conversion.cpp lines 261-271): the number of bytes the loop advances for
the lead byte, none for the invalid-lead branch that throws. -/
def codeWidthAux (b : Nat) : Option Nat :=
  if b < 128 then some 1
  else if b &&& 224 == 192 then some 2
  else if b &&& 240 == 224 then some 3
  else if b &&& 248 == 240 then some 4
  else none

/-! ## create_optimal_string: UTF-8 character counting (conversion.cpp lines 254-275)

The loop scans lead bytes only: i += 1/2/3/4 according to the lead byte
pattern, counting one character per step; any other lead byte throws
SerialiseError("Invalid UTF-8 sequence in string").  Bytes skipped over by
the increment are never read.  `none` models the thrown exception. -/
def charCountAux : List Nat → Option Nat
  | [] => some 0
  | c :: rest =>
    match codeWidthAux c with
    | some k => (charCountAux (rest.drop (k - 1))).map (· + 1)
    | none => none
termination_by s => s.length
decreasing_by
  simp [List.length_drop]
  omega

/-- The fixed capacity bucket chain of create_optimal_string
(conversion.cpp lines 277-295); `none` models the thrown
SerialiseError("String too long ..."). -/
def bucketOf (c : Nat) : Option Nat :=
  if c ≤ 2 then some 2
  else if c ≤ 4 then some 4
  else if c ≤ 8 then some 8
  else if c ≤ 16 then some 16
  else if c ≤ 32 then some 32
  else if c ≤ 64 then some 64
  else if c ≤ 128 then some 128
  else if c ≤ 256 then some 256
  else if c ≤ 512 then some 512
  else if c ≤ 1024 then some 1024
  else none

/-- What the engine receives through str.c_str(): the bytes before the first
NUL byte.  conversion.cpp line 297 passes str.c_str() to
gbln_value_new_str, so bytes from the first NUL on never cross the
boundary. -/
def truncAtNul (s : List Nat) : List Nat :=
  s.takeWhile (fun b => b ≠ 0)

/-- create_optimal_string (conversion.cpp lines 254-298): count characters,
pick the bucket, then gbln_value_new_str(str.c_str(), max_len).  Modelled
from the spec: the engine constructor stores the received C string and the
capacity. -/
def createOptimalString (s : List Nat) : Except GErr FValue :=
  match charCountAux s with
  | none => .error (.serialiseErr "Invalid UTF-8 sequence in string")
  | some c =>
    match bucketOf c with
    | none => .error (.serialiseErr ("String too long (" ++ toString c ++ " characters, max 1024)"))
    | some b => .ok (.fstr (truncAtNul s) b)

/-- create_optimal_int (conversion.cpp lines 220-252): unsigned widths in
ascending order for non-negative values, signed widths in ascending order
for negative values, signed 64-bit fallback. -/
def createOptimalInt (value : Int) : FValue :=
  if 0 ≤ value then
    if value ≤ 255 then .fu8 value.toNat
    else if value ≤ 65535 then .fu16 value.toNat
    else if value ≤ 4294967295 then .fu32 value.toNat
    else .fu64 value.toNat
  else
    if -128 ≤ value ∧ value ≤ 127 then .fi8 value
    else if -32768 ≤ value ∧ value ≤ 32767 then .fi16 value
    else if -2147483648 ≤ value ∧ value ≤ 2147483647 then .fi32 value
    else .fi64 value

/-! ## cpp_to_ffi (conversion.cpp lines 142-214), pure value-level denotation

gbln_object_insert rejects a duplicate key with ErrorDuplicateKey and keeps
insertion order otherwise (modelled from the spec: the error enumeration
lists duplicate key, and object key enumeration is deterministic).  The key
crosses the boundary through key.c_str(), hence truncAtNul. -/
def keyRender (k : List Nat) : String :=
  String.mk (k.map Char.ofNat)

def insertF (entries : List (List Nat × FValue)) (k : List Nat) (v : FValue) :
    Except GErr (List (List Nat × FValue)) :=
  if entries.any (fun p => p.1 = k) then
    .error (.serialiseErr ("Failed to insert object key: " ++ keyRender k))
  else
    .ok (entries ++ [(k, v)])

mutual

/-- cpp_to_ffi (conversion.cpp lines 142-214): dispatch on the variant;
Null/Bool/Float construct directly, Integer goes through create_optimal_int,
String through create_optimal_string, Object creates an empty object and
inserts each key in std::map iteration order, Array creates an empty array
and pushes each element.  The error is the thrown SerialiseError; an insert
failure throws "Failed to insert object key: " + key after freeing both
handles (the handle accounting is verified separately on the instrumented
semantics below). -/
def cppToFfi : Value → Except GErr FValue
  | .vnull => .ok .fnull
  | .vbool b => .ok (.fbool b)
  | .vint n => .ok (createOptimalInt n)
  | .vfloat d => .ok (.ff64 d)
  | .vstr s => createOptimalString s
  | .vobj entries => do
      let es ← convEntries [] entries
      pure (.fobj es)
  | .varr elems => do
      let es ← convElems elems
      pure (.farr es)

/-- The object insertion loop of cpp_to_ffi (conversion.cpp lines 170-183):
each child is converted and inserted into the foreign object built so far;
the duplicate-key check is therefore against the keys inserted earlier. -/
def convEntries (acc : List (List Nat × FValue)) :
    List (List Nat × Value) → Except GErr (List (List Nat × FValue))
  | [] => .ok acc
  | (k, v) :: rest => do
      let fv ← cppToFfi v
      let acc' ← insertF acc (truncAtNul k) fv
      convEntries acc' rest

/-- The array push loop of cpp_to_ffi (conversion.cpp lines 195-206). -/
def convElems : List Value → Except GErr (List FValue)
  | [] => .ok []
  | v :: rest => do
      let fv ← cppToFfi v
      let es ← convElems rest
      pure (fv :: es)

end

/-! ## ffi_to_cpp (conversion.cpp lines 14-136), pure value-level denotation -/

/-- gbln_value_as_i64 on any of the eight integer tags.  Modelled from the
spec: the widening accessor reads the stored value into the 64-bit signed
lane, with the success flag false when it does not fit. -/
def asI64 (n : Int) : Except GErr Value :=
  if -(2 ^ 63) ≤ n ∧ n < 2 ^ 63 then .ok (.vint n)
  else .error (.parseErr "Failed to extract integer value")

/-- gbln_object_get (ffi.hpp): borrowed reference to the first entry whose
key equals the requested key.  Modelled from the spec: get child by key. -/
def lookupF (entries : List (List Nat × FValue)) (k : List Nat) : Option FValue :=
  (entries.find? (fun p => p.1 = k)).map (fun p => p.2)

/-- std::less<std::string>: byte-wise lexicographic comparison. -/
def listLt : List Nat → List Nat → Bool
  | [], [] => false
  | [], _ :: _ => true
  | _ :: _, [] => false
  | a :: as, b :: bs => if a < b then true else if b < a then false else listLt as bs

/-- std::map insert-or-assign, as performed by obj[key] = value in
ffi_to_cpp (conversion.cpp line 106): ordered insertion replacing an equal
key. -/
def mapInsert : List (List Nat × Value) → List Nat → Value → List (List Nat × Value)
  | [], k, v => [(k, v)]
  | (k', v') :: rest, k, v =>
    if k = k' then (k, v) :: rest
    else if listLt k k' then (k, v) :: (k', v') :: rest
    else (k', v') :: mapInsert rest k v

theorem sizeOf_lookupF {entries : List (List Nat × FValue)} {k : List Nat} {fv : FValue}
    (h : lookupF entries k = some fv) : sizeOf fv < sizeOf entries := by
  unfold lookupF at h
  cases hf : entries.find? (fun p => p.1 = k) with
  | none => rw [hf] at h; exact absurd h (by simp)
  | some p =>
    rw [hf] at h
    have hmem := List.mem_of_find?_eq_some hf
    have h1 : sizeOf p < sizeOf entries := List.sizeOf_lt_of_mem hmem
    obtain ⟨a, b⟩ := p
    have hb : b = fv := by simpa using h
    subst hb
    have h2 : sizeOf b < sizeOf (a, b) := by
      simp only [Prod.mk.sizeOf_spec]
      omega
    omega

mutual

/-- ffi_to_cpp (conversion.cpp lines 14-136): dispatch on the foreign tag.
All eight integer tags are read through gbln_value_as_i64; F32 is read and
widened (the model stores the widened payload); Str is read through
gbln_value_as_string and copied into a locally owned std::string (a copy
from a C string, hence up to the first NUL); Object enumerates its keys and
recurses through gbln_object_get; Array recurses over each index. -/
def ffiToCpp : FValue → Except GErr Value
  | .fi8 n => asI64 n
  | .fi16 n => asI64 n
  | .fi32 n => asI64 n
  | .fi64 n => asI64 n
  | .fu8 n => asI64 n
  | .fu16 n => asI64 n
  | .fu32 n => asI64 n
  | .fu64 n => asI64 n
  | .ff32 d => .ok (.vfloat d)
  | .ff64 d => .ok (.vfloat d)
  | .fstr s _ => .ok (.vstr (truncAtNul s))
  | .fbool b => .ok (.vbool b)
  | .fnull => .ok .vnull
  | .fobj entries => do
      let m ← buildMap entries (entries.map Prod.fst) []
      pure (.vobj m)
  | .farr elems => do
      let vs ← backElems elems
      pure (.varr vs)
termination_by v => (sizeOf v, 0)
decreasing_by
  all_goals simp_wf
  all_goals apply Prod.Lex.left
  all_goals omega

/-- The key loop of the Object case (conversion.cpp lines 95-107): for each
enumerated key, fetch the child by key (null means ParseError) and recurse;
obj[key] = child performs the ordered map insertion. -/
def buildMap (entries : List (List Nat × FValue)) (keys : List (List Nat))
    (acc : List (List Nat × Value)) : Except GErr (List (List Nat × Value)) :=
  match keys with
  | [] => .ok acc
  | k :: ks =>
    match h : lookupF entries k with
    | none => .error (.parseErr ("Failed to get object value for key: " ++ keyRender k))
    | some fv => do
        let vv ← ffiToCpp fv
        buildMap entries ks (mapInsert acc k vv)
termination_by (sizeOf entries, keys.length + 1)
decreasing_by
  · apply Prod.Lex.left
    exact sizeOf_lookupF h
  · apply Prod.Lex.right
    simp only [List.length_cons]
    omega

/-- The index loop of the Array case (conversion.cpp lines 117-128). -/
def backElems : List FValue → Except GErr (List Value)
  | [] => .ok []
  | fv :: rest => do
      let vv ← ffiToCpp fv
      let vs ← backElems rest
      pure (vv :: vs)
termination_by l => (sizeOf l, 0)
decreasing_by
  all_goals apply Prod.Lex.left
  all_goals simp
  all_goals omega

end

/-! ## Validity of a Value tree

A Value tree is well formed when its integers lie in the int64_t lane, its
strings scan as UTF-8 with at most 1024 characters, and each object entry
list satisfies the std::map representation invariant (strictly ascending
unique keys under std::less<std::string>). -/

/-- Strictly ascending key list under byte-wise lexicographic order. -/
def keysSorted : List (List Nat) → Bool
  | [] => true
  | [_] => true
  | a :: b :: rest => listLt a b && keysSorted (b :: rest)

/-- No NUL byte: the byte sequence survives the C-string boundary intact. -/
def noNul (s : List Nat) : Bool :=
  s.all (fun b => b ≠ 0)

mutual

/-- Spec-level validity of a Value tree: int64 range, UTF-8-scannable
strings of at most 1024 characters, sorted unique object keys. -/
def validValue : Value → Bool
  | .vnull => true
  | .vbool _ => true
  | .vint n => decide (-(2 ^ 63) ≤ n) && decide (n < 2 ^ 63)
  | .vfloat _ => true
  | .vstr s =>
    match charCountAux s with
    | some c => decide (c ≤ 1024)
    | none => false
  | .vobj entries =>
    keysSorted (entries.map Prod.fst) && validValueEntries entries
  | .varr elems => validValueElems elems

def validValueEntries : List (List Nat × Value) → Bool
  | [] => true
  | (_, v) :: rest => validValue v && validValueEntries rest

def validValueElems : List Value → Bool
  | [] => true
  | v :: rest => validValue v && validValueElems rest

end

mutual

/-- validValue strengthened with NUL-freedom of strings and object keys:
what survives the C-string boundary unchanged. -/
def validValueNF : Value → Bool
  | .vnull => true
  | .vbool _ => true
  | .vint n => decide (-(2 ^ 63) ≤ n) && decide (n < 2 ^ 63)
  | .vfloat _ => true
  | .vstr s =>
    noNul s &&
    match charCountAux s with
    | some c => decide (c ≤ 1024)
    | none => false
  | .vobj entries =>
    keysSorted (entries.map Prod.fst) && (entries.map Prod.fst).all noNul &&
      validValueNFEntries entries
  | .varr elems => validValueNFElems elems

def validValueNFEntries : List (List Nat × Value) → Bool
  | [] => true
  | (_, v) :: rest => validValueNF v && validValueNFEntries rest

def validValueNFElems : List Value → Bool
  | [] => true
  | v :: rest => validValueNF v && validValueNFElems rest

end

/-! ## A model of the engine's compact serializer

Modelled from the spec: the compact text carries a type annotation for every
leaf, including the integer width tag and the string capacity bucket — the
end-to-end example of the spec serializes as
user{id<u32>(12345)name<s64>(Alice)age<i8>(25)active<b>(t)}.  Only the
properties used here matter: the text is a function of the foreign handle
tree, and distinct scalar tags render distinct annotations. -/
mutual

def serModel : FValue → String
  | .fi8 n => "<i8>(" ++ toString n ++ ")"
  | .fi16 n => "<i16>(" ++ toString n ++ ")"
  | .fi32 n => "<i32>(" ++ toString n ++ ")"
  | .fi64 n => "<i64>(" ++ toString n ++ ")"
  | .fu8 n => "<u8>(" ++ toString n ++ ")"
  | .fu16 n => "<u16>(" ++ toString n ++ ")"
  | .fu32 n => "<u32>(" ++ toString n ++ ")"
  | .fu64 n => "<u64>(" ++ toString n ++ ")"
  | .ff32 d => "<f32>(" ++ toString d.bits ++ ")"
  | .ff64 d => "<f64>(" ++ toString d.bits ++ ")"
  | .fstr s m => "<s" ++ toString m ++ ">(" ++ keyRender s ++ ")"
  | .fbool b => "<b>(" ++ (if b then "t" else "f") ++ ")"
  | .fnull => "<null>()"
  | .fobj entries => "\x7b" ++ serEntries entries ++ "\x7d"
  | .farr elems => "[" ++ serElems elems ++ "]"

def serEntries : List (List Nat × FValue) → String
  | [] => ""
  | (k, v) :: rest => keyRender k ++ serModel v ++ serEntries rest

def serElems : List FValue → String
  | [] => ""
  | v :: rest => serModel v ++ serElems rest

end

/-- Serializing a Value in compact form: to_string(value, true) in
serialiser.cpp lines 11-32 converts through cpp_to_ffi and hands the foreign
tree to the engine serializer, abstracted here as the function ser. -/
def compactText (ser : FValue → String) (v : Value) : Except GErr String :=
  (cppToFfi v).map ser

/-! ## Spec-side notions for the optimal integer selector (claim C2) -/

/-- The eight foreign integer tags. -/
inductive IntTag where
  | u8 | u16 | u32 | u64 | i8 | i16 | i32 | i64
deriving DecidableEq, Repr

def IntTag.width : IntTag → Nat
  | .u8 => 8 | .i8 => 8
  | .u16 => 16 | .i16 => 16
  | .u32 => 32 | .i32 => 32
  | .u64 => 64 | .i64 => 64

def IntTag.unsigned : IntTag → Bool
  | .u8 => true | .u16 => true | .u32 => true | .u64 => true
  | .i8 => false | .i16 => false | .i32 => false | .i64 => false

/-- The exact value range of each tag. -/
def IntTag.lo : IntTag → Int
  | .u8 => 0 | .u16 => 0 | .u32 => 0 | .u64 => 0
  | .i8 => -(2 ^ 7) | .i16 => -(2 ^ 15) | .i32 => -(2 ^ 31) | .i64 => -(2 ^ 63)

def IntTag.hi : IntTag → Int
  | .u8 => 2 ^ 8 - 1 | .u16 => 2 ^ 16 - 1 | .u32 => 2 ^ 32 - 1 | .u64 => 2 ^ 64 - 1
  | .i8 => 2 ^ 7 - 1 | .i16 => 2 ^ 15 - 1 | .i32 => 2 ^ 31 - 1 | .i64 => 2 ^ 63 - 1

/-- Tag t represents n exactly. -/
def fitsTag (t : IntTag) (n : Int) : Prop :=
  t.lo ≤ n ∧ n ≤ t.hi

instance (t : IntTag) (n : Int) : Decidable (fitsTag t n) := by
  unfold fitsTag; infer_instance

/-- The integer tag and payload of a foreign scalar, when it is an integer. -/
def intTagValue : FValue → Option (IntTag × Int)
  | .fi8 n => some (.i8, n)
  | .fi16 n => some (.i16, n)
  | .fi32 n => some (.i32, n)
  | .fi64 n => some (.i64, n)
  | .fu8 n => some (.u8, n)
  | .fu16 n => some (.u16, n)
  | .fu32 n => some (.u32, n)
  | .fu64 n => some (.u64, n)
  | _ => none

/-! ## Spec-side notions for the UTF-8 scanner (claim C4) -/

/-- The width a lead byte announces, stated with the spec's bit patterns:
top bit 0 means 1 byte; 110xxxxx means 2; 1110xxxx means 3; 11110xxx means
4; anything else is not a lead byte. -/
def specWidth (b : Nat) : Option Nat :=
  if b.testBit 7 = false then some 1
  else if b.testBit 6 = true ∧ b.testBit 5 = false then some 2
  else if b.testBit 6 = true ∧ b.testBit 5 = true ∧ b.testBit 4 = false then some 3
  else if b.testBit 6 = true ∧ b.testBit 5 = true ∧ b.testBit 4 = true ∧ b.testBit 3 = false then some 4
  else none

/-- The byte sequence decomposes into n characters: each chunk starts at a
lead byte announcing width k, of which min (k-1, remaining) continuation
bytes are skipped unexamined. -/
inductive Chunks : List Nat → Nat → Prop where
  | nil : Chunks [] 0
  | cons {b : Nat} {t : List Nat} {n k : Nat} :
      specWidth b = some k → Chunks (t.drop (k - 1)) n → Chunks (b :: t) (n + 1)

/-- Some byte reached in lead-byte position is not a valid lead byte. -/
inductive BadLead : List Nat → Prop where
  | here {b : Nat} {t : List Nat} : specWidth b = none → BadLead (b :: t)
  | there {b : Nat} {t : List Nat} {k : Nat} :
      specWidth b = some k → BadLead (t.drop (k - 1)) → BadLead (b :: t)

/-- All members are bytes. -/
def allBytes (s : List Nat) : Prop :=
  ∀ b ∈ s, b < 256

instance (s : List Nat) : Decidable (allBytes s) := by
  unfold allBytes; infer_instance

/-! ## Instrumented semantics of the foreign boundary

Handle accounting for the ownership claims.  A state records the foreign
handles currently owned by the C++ side as roots (live), the handles passed
to gbln_value_free (freed, most recent first), a flag set by a free of a
non-live handle (a double free or a free of a transferred handle), an
operation counter consumed by the insert/push failure oracle, a counter of
engine calls, and allocation/free counters for engine-owned C strings. -/
structure St where
  nextId : Nat
  live : List Nat
  freed : List Nat
  bad : Bool
  ops : Nat
  calls : Nat
  strAlloc : Nat
  strFree : Nat
deriving DecidableEq, Repr

def initSt : St :=
  { nextId := 1, live := [], freed := [], bad := false,
    ops := 0, calls := 0, strAlloc := 0, strFree := 0 }

/-- A computation against the foreign engine: it may throw a C++ exception,
and the heap state persists across the throw (stack unwinding does not roll
the foreign heap back). -/
def M (α : Type) : Type :=
  St → Except GErr α × St

instance : Monad M where
  pure a := fun s => (.ok a, s)
  bind m f := fun s =>
    match m s with
    | (.ok a, s') => f a s'
    | (.error e, s') => (.error e, s')

/-- Throwing a C++ exception. -/
def throwG {α : Type} (e : GErr) : M α :=
  fun s => (.error e, s)

/-- Any gbln_value_new_* constructor: the engine hands back a fresh owned
handle (modelled from the spec: construction of each tag always yields a
handle). -/
def allocV : M Nat := fun s =>
  (.ok s.nextId,
    { s with nextId := s.nextId + 1, live := s.nextId :: s.live,
             calls := s.calls + 1 })

/-- gbln_value_free: releasing a handle the C++ side does not own (already
freed, already transferred, or never owned) sets the bad flag — the
double-free / invalid-free class. -/
def freeV (h : Nat) : M Unit := fun s =>
  if h ∈ s.live then
    (.ok (), { s with live := s.live.erase h, freed := h :: s.freed,
                      calls := s.calls + 1 })
  else
    (.ok (), { s with bad := true, calls := s.calls + 1 })

/-- gbln_object_insert / gbln_array_push: ownership of the child transfers
to the container exactly on a success code; on a failure code (the oracle
decides, e.g. a duplicate key) the child stays owned by the caller.
Modelled from the spec's ownership-transfer-on-success-only contract. -/
def insertOp (oracle : Nat → Bool) (child : Nat) : M Bool := fun s =>
  if oracle s.ops then
    (.ok false, { s with ops := s.ops + 1, calls := s.calls + 1 })
  else
    (.ok true, { s with ops := s.ops + 1, calls := s.calls + 1,
                        live := s.live.erase child })

mutual

/-- cpp_to_ffi (conversion.cpp lines 142-214) on the instrumented boundary:
the same control flow as cppToFfi, tracking handles instead of values.
Scalars allocate one handle (vint through create_optimal_int's constructor
call, vstr through create_optimal_string, which throws before any
construction when the scan or the bucket fails). -/
def cppToFfiM (oracle : Nat → Bool) : Value → M Nat
  | .vnull => allocV
  | .vbool _ => allocV
  | .vint _ => allocV
  | .vfloat _ => allocV
  | .vstr s =>
    match charCountAux s with
    | none => throwG (.serialiseErr "Invalid UTF-8 sequence in string")
    | some c =>
      match bucketOf c with
      | none => throwG (.serialiseErr ("String too long (" ++ toString c ++ " characters, max 1024)"))
      | some _ => allocV
  | .vobj entries => do
      let obj ← allocV
      insertLoopM oracle obj entries
      pure obj
  | .varr elems => do
      let arr ← allocV
      pushLoopM oracle arr elems
      pure arr

/-- The object insertion loop (conversion.cpp lines 170-183): convert the
child, insert; on a failure code free the child then the object and throw;
on success the container owns the child and nothing is freed. -/
def insertLoopM (oracle : Nat → Bool) (obj : Nat) :
    List (List Nat × Value) → M Unit
  | [] => pure ()
  | (k, v) :: rest => do
      let child ← cppToFfiM oracle v
      let okIns ← insertOp oracle child
      if okIns then
        insertLoopM oracle obj rest
      else do
        freeV child
        freeV obj
        throwG (.serialiseErr ("Failed to insert object key: " ++ keyRender k))

/-- The array push loop (conversion.cpp lines 195-206). -/
def pushLoopM (oracle : Nat → Bool) (arr : Nat) : List Value → M Unit
  | [] => pure ()
  | v :: rest => do
      let child ← cppToFfiM oracle v
      let okIns ← insertOp oracle child
      if okIns then
        pushLoopM oracle arr rest
      else do
        freeV child
        freeV arr
        throwG (.serialiseErr "Failed to push array element")

end

/-! ## The engine oracle for the public entry points -/

/-- One engine interaction's observable outcomes, abstracting gbln_parse,
gbln_read_io, gbln_write_io, gbln_config_new and the process-wide last-error
state (modelled from the spec: delegated operations report a result code,
and the last-error message is fetched as a freshly allocated string). -/
structure Eng where
  parseCode : GCode
  parseVal : Option FValue
  readCode : GCode
  readVal : Option FValue
  writeCode : GCode
  cfgNewOk : Bool
  errMsg : Option String

/-- gbln_last_error_message: a freshly allocated engine string, or null. -/
def lastErrorMsgOp (E : Eng) : M (Option String) := fun s =>
  (.ok E.errMsg,
    { s with calls := s.calls + 1,
             strAlloc := s.strAlloc + (if E.errMsg.isSome then 1 else 0) })

/-- gbln_string_free. -/
def stringFreeOp : M Unit := fun s =>
  (.ok (), { s with calls := s.calls + 1, strFree := s.strFree + 1 })

/-- gbln_parse (delegated to the engine). -/
def gblnParseOp (E : Eng) : M (GCode × Option FValue) := fun s =>
  (.ok (E.parseCode, E.parseVal), { s with calls := s.calls + 1 })

/-- gbln_read_io (delegated to the engine). -/
def gblnReadIoOp (E : Eng) : M (GCode × Option FValue) := fun s =>
  (.ok (E.readCode, E.readVal), { s with calls := s.calls + 1 })

/-- gbln_write_io (delegated to the engine). -/
def gblnWriteIoOp (E : Eng) : M GCode := fun s =>
  (.ok E.writeCode, { s with calls := s.calls + 1 })

/-- gbln_config_new: a fresh owned configuration handle, or null. -/
def gblnConfigNewOp (E : Eng) : M (Option Nat) := fun s =>
  if E.cfgNewOk then
    (.ok (some s.nextId),
      { s with nextId := s.nextId + 1, live := s.nextId :: s.live,
               calls := s.calls + 1 })
  else
    (.ok none, { s with calls := s.calls + 1 })

/-! ## Public entry points -/

/-- parse (parser.cpp lines 13-38): delegate to gbln_parse; on a non-success
code fetch the last error message, copy it (the local msg), free the foreign
string, throw ParseError; on success reject a null handle, wrap the handle
in ManagedValue and convert, the wrapper freeing the handle on both the
return path and the unwind path. -/
def parseM (E : Eng) (gblnString : String) : M Value := do
  let r ← gblnParseOp E
  if r.1 ≠ .ok then do
    let m ← lastErrorMsgOp E
    let msg := m.getD "Parse failed"
    match m with
    | some _ => stringFreeOp
    | none => pure ()
    throwG (.parseErr msg)
  else
    match r.2 with
    | none => throwG (.parseErr "Parse returned null pointer")
    | some fv => do
        let h ← allocV
        match ffiToCpp fv with
        | .error e => do
            freeV h
            throwG e
        | .ok v => do
            freeV h
            pure v

/-- read_io (io.cpp lines 11-36): same orchestration as parse with IoError.
The source surrounds the path with apostrophe quotes in the message; the
quotes are omitted from the modelled text. -/
def readIoM (E : Eng) (path : String) : M Value := do
  let r ← gblnReadIoOp E
  if r.1 ≠ .ok then do
    let m ← lastErrorMsgOp E
    let msg := m.getD "I/O read failed"
    match m with
    | some _ => stringFreeOp
    | none => pure ()
    throwG (.ioErr ("Failed to read I/O file " ++ path ++ ": " ++ msg))
  else
    match r.2 with
    | none => throwG (.ioErr ("I/O read returned null pointer for: " ++ path))
    | some fv => do
        let h ← allocV
        match ffiToCpp fv with
        | .error e => do
            freeV h
            throwG e
        | .ok v => do
            freeV h
            pure v

/-- Config (config.hpp lines 19-51). -/
structure CppConfig where
  miniMode : Bool := true
  compress : Bool := true
  compressionLevel : Int := 6
  indent : Int := 2
  stripComments : Bool := true
deriving DecidableEq, Repr

/-- Config::validate (config.hpp lines 37-51). -/
def validateCfg (c : CppConfig) : Except GErr Unit :=
  if c.compressionLevel < 0 ∨ 9 < c.compressionLevel then
    .error (.validationErr ("Compression level must be 0-9, got: " ++ toString c.compressionLevel))
  else if c.indent < 0 ∨ 16 < c.indent then
    .error (.validationErr ("Indent must be 0-16, got: " ++ toString c.indent))
  else
    .ok ()

/-- write_io (io.cpp lines 38-80): validate the configuration first, convert
the value, create the foreign configuration, delegate the write; on a
non-success code fetch and free the last error message and throw IoError;
the ManagedConfig and ManagedValue wrappers release on every exit path
(reverse declaration order).  The source quotes the path with apostrophes;
the quotes are omitted from the modelled text. -/
def writeIoM (E : Eng) (oracle : Nat → Bool) (v : Value) (path : String)
    (cfg : CppConfig) : M Unit := do
  match validateCfg cfg with
  | .error e => throwG e
  | .ok () => do
    let h ← cppToFfiM oracle v
    let cfgH? ← gblnConfigNewOp E
    match cfgH? with
    | none => do
        freeV h
        throwG (.ioErr "Failed to create configuration")
    | some cfgH => do
        let code ← gblnWriteIoOp E
        if code ≠ .ok then do
          let m ← lastErrorMsgOp E
          let msg := m.getD "I/O write failed"
          match m with
          | some _ => stringFreeOp
          | none => pure ()
          freeV cfgH
          freeV h
          throwG (.ioErr ("Failed to write I/O file " ++ path ++ ": " ++ msg))
        else do
          freeV cfgH
          freeV h
          pure ()

/-! ## The scoped wrappers (managed_value.hpp) -/

/-- ManagedValue::ManagedValue (managed_value.hpp lines 26-34): wrapping a
null GblnValue pointer throws std::invalid_argument at construction. -/
def managedValueNew (ptr : Option Nat) : Except GErr Nat :=
  match ptr with
  | none => .error (.invalidArg "Cannot create ManagedValue from null pointer")
  | some h => .ok h

/-- ManagedString::ManagedString (managed_value.hpp lines 63-71). -/
def managedStringNew (ptr : Option String) : Except GErr String :=
  match ptr with
  | none => .error (.invalidArg "Cannot create ManagedString from null pointer")
  | some t => .ok t

/-- ManagedConfig::ManagedConfig (managed_value.hpp lines 100-108). -/
def managedConfigNew (ptr : Option Nat) : Except GErr Nat :=
  match ptr with
  | none => .error (.invalidArg "Cannot create ManagedConfig from null pointer")
  | some h => .ok h

/-- ManagedKeys::ManagedKeys (managed_value.hpp lines 133-139): throws only
when the keys pointer is null AND the count is non-zero.  The wrapper is
modelled by its stored count. -/
def managedKeysNew (keysNull : Bool) (count : Nat) : Except GErr Nat :=
  if keysNull ∧ 0 < count then
    .error (.invalidArg "Null keys with non-zero count")
  else
    .ok count

/-! ## The serialiser entry points (serialiser.cpp) -/

/-- to_string (serialiser.cpp lines 11-32): convert through cpp_to_ffi, hand
the handle to gbln_to_string (mini) or gbln_to_string_pretty, reject a null
result, copy the string.  The two engine serializers are abstracted as
functions of the foreign tree, none modelling a null return. -/
def gblnToString (serCompact serPretty : FValue → Option String)
    (value : Value) (mini : Bool) : Except GErr String :=
  match cppToFfi value with
  | .error e => .error e
  | .ok fv =>
    match (if mini then serCompact fv else serPretty fv) with
    | none => .error (.serialiseErr "Serialisation returned null pointer")
    | some t => .ok t

/-- to_string_pretty (serialiser.cpp lines 34-40): the indent parameter is
explicitly discarded ((void)indent) and the call forwards to
to_string(value, false). -/
def gblnToStringPretty (serCompact serPretty : FValue → Option String)
    (value : Value) (indent : Int) : Except GErr String :=
  gblnToString serCompact serPretty value false

/-- Whether a fallible computation succeeded. -/
def isOkE {α : Type} : Except GErr α → Bool
  | .ok _ => true
  | .error _ => false

/-- The fixed ascending capacity bucket set of the optimal string selector. -/
def buckets : List Nat :=
  [2, 4, 8, 16, 32, 64, 128, 256, 512, 1024]

/-- A scalar Value: one whose model-to-foreign conversion allocates exactly
one handle and cannot fail (Null, Bool, Integer, Float). -/
def scalarV : Value → Bool
  | .vnull => true
  | .vbool _ => true
  | .vint _ => true
  | .vfloat _ => true
  | _ => false

/-!
# Theorems
-/

/-- C10: for every Value v and all indents i and j, to_string_pretty(v, i)
equals to_string_pretty(v, j) and equals to_string(v, false): the indent
parameter of to_string_pretty has no effect on the output, whatever the
engine serializers return. -/
theorem c10_pretty_indent_unused :
    ∀ (serCompact serPretty : FValue → Option String) (v : Value) (i j : Int),
      gblnToStringPretty serCompact serPretty v i =
        gblnToStringPretty serCompact serPretty v j ∧
      gblnToStringPretty serCompact serPretty v i =
        gblnToString serCompact serPretty v false := by
  intro serCompact serPretty v i j
  exact ⟨rfl, rfl⟩

/-- C7 counterexample: constructing the key-list wrapper from a null keys
pointer with count 0 succeeds (managed_value.hpp line 136 only throws when
the count is non-zero), so the claim's "for every count" fails at count 0. -/
theorem c7_counterexample :
    isOkE (managedKeysNew true 0) = true := by
  rfl

/-- C7 amended: wrapping a null resource fails at construction for the
value, configuration and string kinds; for the key-list kind construction
from a null pointer fails exactly for non-zero counts (count 0 yields an
empty key list). -/
theorem c7_null_construction :
    isOkE (managedValueNew none) = false ∧
    isOkE (managedConfigNew none) = false ∧
    isOkE (managedStringNew none) = false ∧
    ∀ cnt : Nat, isOkE (managedKeysNew true cnt) = decide (cnt = 0) := by
  refine ⟨rfl, rfl, rfl, ?_⟩
  intro cnt
  cases cnt with
  | zero => rfl
  | succ n =>
    simp [managedKeysNew, isOkE]

/-- C9: for every configuration whose compression level lies outside 0-9 or
whose indent lies outside 0-16, write_io throws ValidationError with the
final state identical to the initial one: no conversion, no foreign
configuration construction, no engine call, no write. -/
theorem c9_invalid_config_rejected_first :
    ∀ (E : Eng) (oracle : Nat → Bool) (v : Value) (path : String)
      (cfg : CppConfig) (s : St),
      (cfg.compressionLevel < 0 ∨ 9 < cfg.compressionLevel ∨
        cfg.indent < 0 ∨ 16 < cfg.indent) →
      ∃ m, writeIoM E oracle v path cfg s = (.error (.validationErr m), s) := by
  intro E oracle v path cfg s h
  by_cases h1 : cfg.compressionLevel < 0 ∨ 9 < cfg.compressionLevel
  · refine ⟨"Compression level must be 0-9, got: " ++ toString cfg.compressionLevel, ?_⟩
    simp [writeIoM, validateCfg, h1, throwG]
  · have h2 : cfg.indent < 0 ∨ 16 < cfg.indent := by tauto
    refine ⟨"Indent must be 0-16, got: " ++ toString cfg.indent, ?_⟩
    simp [writeIoM, validateCfg, h1, h2, throwG]

/-- C9 witness: a compression level of 10 is rejected with the state
untouched. -/
theorem c9_invalid_config_rejected_first_witness :
    ((10 : Int) < 0 ∨ 9 < (10 : Int) ∨ (2 : Int) < 0 ∨ 16 < (2 : Int)) ∧
    ∃ m, writeIoM ⟨.ok, none, .ok, none, .ok, true, none⟩ (fun _ => false)
        .vnull "out.gbln" { compressionLevel := 10 } initSt =
      (.error (.validationErr m), initSt) :=
  ⟨by decide,
   c9_invalid_config_rejected_first ⟨.ok, none, .ok, none, .ok, true, none⟩
     (fun _ => false) .vnull "out.gbln" { compressionLevel := 10 } initSt
     (by decide)⟩

/-- C2: on every int64 value n, create_optimal_int yields an integer foreign
value whose payload is exactly n, whose tag fits n, whose width is minimal
among all tags that fit n, and whose signedness is unsigned exactly for
non-negative n (so a non-negative value never gets a signed tag, and the
chosen tag is the first fit in the ascending width order of its signedness
class); in particular 200 selects u8, -5 selects i8 and 70000 selects u32.
Totality and determinism hold because createOptimalInt is a function. -/
theorem c2_optimal_int_selection :
    (∀ n : Int, -(2 ^ 63) ≤ n → n < 2 ^ 63 →
      ∃ t : IntTag, intTagValue (createOptimalInt n) = some (t, n) ∧
        fitsTag t n ∧
        (∀ u : IntTag, fitsTag u n → t.width ≤ u.width) ∧
        t.unsigned = decide (0 ≤ n)) ∧
    createOptimalInt 200 = .fu8 200 ∧
    createOptimalInt (-5) = .fi8 (-5) ∧
    createOptimalInt 70000 = .fu32 70000 := by
  refine ⟨?_, rfl, rfl, rfl⟩
  intro n hlo hhi
  unfold createOptimalInt
  by_cases hpos : 0 ≤ n
  · by_cases h8 : n ≤ 255
    · refine ⟨.u8, ?_, ?_, ?_, ?_⟩
      · simp [hpos, h8, intTagValue, Int.toNat_of_nonneg hpos]
      · simp [fitsTag, IntTag.lo, IntTag.hi]; omega
      · intro u hu; cases u <;> simp [IntTag.width]
      · simp [hpos, IntTag.unsigned]
    · by_cases h16 : n ≤ 65535
      · refine ⟨.u16, ?_, ?_, ?_, ?_⟩
        · simp [hpos, h8, h16, intTagValue, Int.toNat_of_nonneg hpos]
        · simp [fitsTag, IntTag.lo, IntTag.hi]; omega
        · intro u hu
          cases u <;> simp [fitsTag, IntTag.lo, IntTag.hi, IntTag.width] at * <;> omega
        · simp [hpos, IntTag.unsigned]
      · by_cases h32 : n ≤ 4294967295
        · refine ⟨.u32, ?_, ?_, ?_, ?_⟩
          · simp [hpos, h8, h16, h32, intTagValue, Int.toNat_of_nonneg hpos]
          · simp [fitsTag, IntTag.lo, IntTag.hi]; omega
          · intro u hu
            cases u <;> simp [fitsTag, IntTag.lo, IntTag.hi, IntTag.width] at * <;> omega
          · simp [hpos, IntTag.unsigned]
        · refine ⟨.u64, ?_, ?_, ?_, ?_⟩
          · simp [hpos, h8, h16, h32, intTagValue, Int.toNat_of_nonneg hpos]
          · simp [fitsTag, IntTag.lo, IntTag.hi]; omega
          · intro u hu
            cases u <;> simp [fitsTag, IntTag.lo, IntTag.hi, IntTag.width] at * <;> omega
          · simp [hpos, IntTag.unsigned]
  · by_cases h8 : -128 ≤ n ∧ n ≤ 127
    · refine ⟨.i8, ?_, ?_, ?_, ?_⟩
      · simp [hpos, h8, intTagValue]
      · simp [fitsTag, IntTag.lo, IntTag.hi]; omega
      · intro u hu; cases u <;> simp [IntTag.width]
      · simp [hpos, IntTag.unsigned]
    · by_cases h16 : -32768 ≤ n ∧ n ≤ 32767
      · refine ⟨.i16, ?_, ?_, ?_, ?_⟩
        · simp [hpos, h8, h16, intTagValue]
        · simp [fitsTag, IntTag.lo, IntTag.hi]; omega
        · intro u hu
          cases u <;> simp [fitsTag, IntTag.lo, IntTag.hi, IntTag.width] at * <;> omega
        · simp [hpos, IntTag.unsigned]
      · by_cases h32 : -2147483648 ≤ n ∧ n ≤ 2147483647
        · refine ⟨.i32, ?_, ?_, ?_, ?_⟩
          · simp [hpos, h8, h16, h32, intTagValue]
          · simp [fitsTag, IntTag.lo, IntTag.hi]; omega
          · intro u hu
            cases u <;> simp [fitsTag, IntTag.lo, IntTag.hi, IntTag.width] at * <;> omega
          · simp [hpos, IntTag.unsigned]
        · refine ⟨.i64, ?_, ?_, ?_, ?_⟩
          · simp [hpos, h8, h16, h32, intTagValue]
          · simp [fitsTag, IntTag.lo, IntTag.hi]; omega
          · intro u hu
            cases u <;> simp [fitsTag, IntTag.lo, IntTag.hi, IntTag.width] at * <;> omega
          · simp [hpos, IntTag.unsigned]

/-- C2 witness: instantiating the selector theorem at n = 200. -/
theorem c2_optimal_int_selection_witness :
    (-(2 ^ 63) ≤ (200 : Int)) ∧ ((200 : Int) < 2 ^ 63) ∧
    ∃ t : IntTag, intTagValue (createOptimalInt 200) = some (t, 200) ∧
      fitsTag t 200 ∧
      (∀ u : IntTag, fitsTag u 200 → t.width ≤ u.width) ∧
      t.unsigned = decide ((0 : Int) ≤ 200) :=
  ⟨by decide, by decide,
   c2_optimal_int_selection.1 200 (by decide) (by decide)⟩

/-- The if-chain of create_optimal_string agrees with "the smallest element
of the fixed ascending bucket set that is at least the character count". -/
theorem bucketOf_spec (c : Nat) (h : c ≤ 1024) :
    ∃ b, bucketOf c = some b ∧
      buckets.find? (fun x => decide (c ≤ x)) = some b ∧
      b ∈ buckets ∧ c ≤ b ∧ (∀ x ∈ buckets, c ≤ x → b ≤ x) := by
  unfold bucketOf buckets
  by_cases h2 : c ≤ 2
  · refine ⟨2, by simp [h2], by simp [List.find?, h2], by simp, h2, ?_⟩
    intro x hx _; fin_cases hx <;> omega
  · by_cases h4 : c ≤ 4
    · refine ⟨4, by simp [h2, h4], by simp [List.find?, h2, h4], by simp, h4, ?_⟩
      intro x hx hcx; fin_cases hx <;> omega
    · by_cases h8 : c ≤ 8
      · refine ⟨8, by simp [h2, h4, h8], by simp [List.find?, h2, h4, h8], by simp, h8, ?_⟩
        intro x hx hcx; fin_cases hx <;> omega
      · by_cases h16 : c ≤ 16
        · refine ⟨16, by simp [h2, h4, h8, h16], by simp [List.find?, h2, h4, h8, h16],
            by simp, h16, ?_⟩
          intro x hx hcx; fin_cases hx <;> omega
        · by_cases h32 : c ≤ 32
          · refine ⟨32, by simp [h2, h4, h8, h16, h32],
              by simp [List.find?, h2, h4, h8, h16, h32], by simp, h32, ?_⟩
            intro x hx hcx; fin_cases hx <;> omega
          · by_cases h64 : c ≤ 64
            · refine ⟨64, by simp [h2, h4, h8, h16, h32, h64],
                by simp [List.find?, h2, h4, h8, h16, h32, h64], by simp, h64, ?_⟩
              intro x hx hcx; fin_cases hx <;> omega
            · by_cases h128 : c ≤ 128
              · refine ⟨128, by simp [h2, h4, h8, h16, h32, h64, h128],
                  by simp [List.find?, h2, h4, h8, h16, h32, h64, h128], by simp, h128, ?_⟩
                intro x hx hcx; fin_cases hx <;> omega
              · by_cases h256 : c ≤ 256
                · refine ⟨256, by simp [h2, h4, h8, h16, h32, h64, h128, h256],
                    by simp [List.find?, h2, h4, h8, h16, h32, h64, h128, h256],
                    by simp, h256, ?_⟩
                  intro x hx hcx; fin_cases hx <;> omega
                · by_cases h512 : c ≤ 512
                  · refine ⟨512, by simp [h2, h4, h8, h16, h32, h64, h128, h256, h512],
                      by simp [List.find?, h2, h4, h8, h16, h32, h64, h128, h256, h512],
                      by simp, h512, ?_⟩
                    intro x hx hcx; fin_cases hx <;> omega
                  · refine ⟨1024, by simp [h2, h4, h8, h16, h32, h64, h128, h256, h512, h],
                      by simp [List.find?, h2, h4, h8, h16, h32, h64, h128, h256, h512, h],
                      by simp, h, ?_⟩
                    intro x hx hcx; fin_cases hx <;> omega

/-- One ASCII byte consumes itself and contributes one character. -/
theorem charCountAux_ascii (l : List Nat) :
    charCountAux (97 :: l) = (charCountAux l).map (· + 1) := by
  simp [charCountAux, codeWidthAux]

/-- A run of n ASCII bytes scans as n characters. -/
theorem charCountAux_replicate (n : Nat) :
    charCountAux (List.replicate n 97) = some n := by
  induction n with
  | zero => simp [charCountAux]
  | succ m ih =>
    rw [List.replicate_succ, charCountAux_ascii, ih]
    rfl

/-- A string scanning to 1025 characters exceeds every bucket, so
create_optimal_string throws the string-too-long error. -/
theorem createOptimalString_count_1025 (s : List Nat)
    (h : charCountAux s = some 1025) :
    createOptimalString s =
      .error (.serialiseErr ("String too long (1025 characters, max 1024)")) := by
  unfold createOptimalString
  rw [h]
  rfl

/-- C3: when the scanner yields character count c with c at most 1024,
create_optimal_string selects as capacity exactly the smallest element of
the ascending set 2, 4, ..., 1024 that is at least c, and constructs the
foreign string; when c exceeds 1024 it throws the string-too-long error and,
on the instrumented boundary, no foreign value is constructed (the state is
untouched).  A 0-character string gets bucket 2, a 3-character string
bucket 4, and a 1025-character string fails. -/
theorem c3_optimal_string_bucketing :
    (∀ (s : List Nat) (c : Nat), charCountAux s = some c →
      (c ≤ 1024 →
        ∃ b, bucketOf c = some b ∧
          buckets.find? (fun x => decide (c ≤ x)) = some b ∧
          b ∈ buckets ∧ c ≤ b ∧ (∀ x ∈ buckets, c ≤ x → b ≤ x) ∧
          createOptimalString s = .ok (.fstr (truncAtNul s) b)) ∧
      (1024 < c →
        createOptimalString s =
          .error (.serialiseErr ("String too long (" ++ toString c ++ " characters, max 1024)")) ∧
        ∀ (oracle : Nat → Bool) (st : St),
          cppToFfiM oracle (.vstr s) st =
            (.error (.serialiseErr ("String too long (" ++ toString c ++ " characters, max 1024)")), st))) ∧
    createOptimalString [] = .ok (.fstr [] 2) ∧
    createOptimalString [97, 98, 99] = .ok (.fstr [97, 98, 99] 4) ∧
    createOptimalString (List.replicate 1025 97) =
      .error (.serialiseErr ("String too long (1025 characters, max 1024)")) := by
  refine ⟨?_, by simp [createOptimalString, charCountAux, codeWidthAux, bucketOf, truncAtNul],
    by simp [createOptimalString, charCountAux, codeWidthAux, bucketOf, truncAtNul], ?_⟩
  · intro s c hc
    constructor
    · intro hle
      obtain ⟨b, hb1, hb2, hb3, hb4, hb5⟩ := bucketOf_spec c hle
      exact ⟨b, hb1, hb2, hb3, hb4, hb5, by simp [createOptimalString, hc, hb1]⟩
    · intro hgt
      have hb : bucketOf c = none := by
        unfold bucketOf
        have h2 : ¬c ≤ 2 := by omega
        have h4 : ¬c ≤ 4 := by omega
        have h8 : ¬c ≤ 8 := by omega
        have h16 : ¬c ≤ 16 := by omega
        have h32 : ¬c ≤ 32 := by omega
        have h64 : ¬c ≤ 64 := by omega
        have h128 : ¬c ≤ 128 := by omega
        have h256 : ¬c ≤ 256 := by omega
        have h512 : ¬c ≤ 512 := by omega
        have h1024 : ¬c ≤ 1024 := by omega
        simp [h2, h4, h8, h16, h32, h64, h128, h256, h512, h1024]
      refine ⟨by simp [createOptimalString, hc, hb], ?_⟩
      intro oracle st
      simp [cppToFfiM, hc, hb, throwG]
  · exact createOptimalString_count_1025 _ (charCountAux_replicate 1025)

/-- C3 witness: instantiating the bucketing theorem at a concrete
4-character string. -/
theorem c3_optimal_string_bucketing_witness :
    charCountAux [104, 105, 106, 107] = some 4 ∧ (4 ≤ 1024) ∧
    ∃ b, bucketOf 4 = some b ∧
      buckets.find? (fun x => decide (4 ≤ x)) = some b ∧
      b ∈ buckets ∧ 4 ≤ b ∧ (∀ x ∈ buckets, 4 ≤ x → b ≤ x) ∧
      createOptimalString [104, 105, 106, 107] = .ok (.fstr [104, 105, 106, 107] b) :=
  ⟨by simp [charCountAux, codeWidthAux], by decide,
   (c3_optimal_string_bucketing.1 [104, 105, 106, 107] 4
     (by simp [charCountAux, codeWidthAux])).1 (by decide)⟩

set_option maxRecDepth 4000 in
/-- The mask tests of the code agree with the spec's bit patterns on every
byte. -/
theorem codeWidthAux_eq_specWidth_fin :
    ∀ b : Fin 256, codeWidthAux b.val = specWidth b.val := by
  decide

theorem codeWidthAux_eq_specWidth {b : Nat} (hb : b < 256) :
    codeWidthAux b = specWidth b :=
  codeWidthAux_eq_specWidth_fin ⟨b, hb⟩

/-- Dropping at most everything of a list after its own prefix. -/
theorem drop_len_append (l r : List Nat) : (l ++ r).drop l.length = r := by
  simp

/-- Membership survives drop. -/
theorem allBytes_drop {s : List Nat} (j : Nat) (h : allBytes s) :
    allBytes (s.drop j) := by
  intro b hb
  exact h b (List.mem_of_mem_drop hb)

theorem allBytes_tail {c : Nat} {s : List Nat} (h : allBytes (c :: s)) :
    allBytes s := by
  intro b hb
  exact h b (List.mem_cons_of_mem c hb)

/-- The scanner computes exactly the chunk decomposition: some n iff the
byte sequence decomposes into n spec-pattern chunks, none iff some byte
reached in lead position matches no pattern. -/
theorem charCount_characterisation :
    ∀ (N : Nat) (s : List Nat), s.length ≤ N → allBytes s →
      (∀ n, (charCountAux s = some n ↔ Chunks s n)) ∧
      ((charCountAux s = none) ↔ BadLead s) := by
  intro N
  induction N with
  | zero =>
    intro s hlen _
    have hs : s = [] := by
      cases s with
      | nil => rfl
      | cons a t => simp at hlen
    subst hs
    constructor
    · intro n
      constructor
      · intro h
        have : n = 0 := by simp [charCountAux] at h; omega
        subst this
        exact Chunks.nil
      · intro h
        cases h
        simp [charCountAux]
    · constructor
      · intro h
        simp [charCountAux] at h
      · intro h
        cases h
  | succ N ih =>
    intro s hlen hbytes
    cases s with
    | nil =>
      constructor
      · intro n
        constructor
        · intro h
          have : n = 0 := by simp [charCountAux] at h; omega
          subst this
          exact Chunks.nil
        · intro h
          cases h
          simp [charCountAux]
      · constructor
        · intro h
          simp [charCountAux] at h
        · intro h
          cases h
    | cons c rest =>
      have hc : c < 256 := hbytes c (List.mem_cons_self c rest)
      have hcw : codeWidthAux c = specWidth c := codeWidthAux_eq_specWidth hc
      cases hw : specWidth c with
      | none =>
        have hunfold : charCountAux (c :: rest) = none := by
          rw [charCountAux, hcw, hw]
        constructor
        · intro n
          constructor
          · intro h
            rw [hunfold] at h
            cases h
          · intro h
            cases h with
            | cons hw' _ => rw [hw] at hw'; cases hw'
        · constructor
          · intro _
            exact BadLead.here hw
          · intro _
            exact hunfold
      | some k =>
        have hunfold : charCountAux (c :: rest) =
            (charCountAux (rest.drop (k - 1))).map (· + 1) := by
          rw [charCountAux, hcw, hw]
        have hlen' : (rest.drop (k - 1)).length ≤ N := by
          have h1 : rest.length ≤ N := by simp at hlen; omega
          have h2 : (rest.drop (k - 1)).length ≤ rest.length := by
            simp [List.length_drop]
          omega
        have hbytes' : allBytes (rest.drop (k - 1)) :=
          allBytes_drop (k - 1) (allBytes_tail hbytes)
        obtain ⟨ihSome, ihNone⟩ := ih (rest.drop (k - 1)) hlen' hbytes'
        constructor
        · intro n
          constructor
          · intro h
            rw [hunfold] at h
            rw [Option.map_eq_some'] at h
            obtain ⟨m, hm, hmn⟩ := h
            subst hmn
            exact Chunks.cons hw ((ihSome m).mp hm)
          · intro h
            cases h with
            | cons hw' hch =>
              rw [hw] at hw'
              injection hw' with hk
              subst hk
              rw [hunfold]
              rw [(ihSome _).mpr hch]
              rfl
        · constructor
          · intro h
            rw [hunfold] at h
            rw [Option.map_eq_none'] at h
            exact BadLead.there hw (ihNone.mp h)
          · intro h
            cases h with
            | here hbad => rw [hw] at hbad; cases hbad
            | there hw' hbl =>
              rw [hw] at hw'
              injection hw' with hk
              subst hk
              rw [hunfold, Option.map_eq_none']
              exact ihNone.mpr hbl

/-- C4: the scanner counts characters by lead bytes only.  (1) It yields
count n exactly when the bytes decompose into n chunks, each a lead byte
matching one of the spec's four bit patterns followed by width-many skipped
bytes; (2) it fails exactly when some byte reached in lead position matches
none of the four patterns; (3) the bytes skipped after a lead byte are
never inspected: replacing them by any bytes of the same length leaves the
result unchanged; (4) the malformed continuation byte 0xFF after the
2-byte lead 0xC3 is accepted (one character) while 0xFF in lead position is
rejected. -/
theorem c4_utf8_lead_byte_scan :
    (∀ (s : List Nat) (n : Nat), allBytes s →
      (charCountAux s = some n ↔ Chunks s n)) ∧
    (∀ s : List Nat, allBytes s →
      ((charCountAux s = none) ↔ BadLead s)) ∧
    (∀ (b k : Nat) (pre pre' rest : List Nat), b < 256 →
      specWidth b = some k → pre.length = k - 1 → pre'.length = k - 1 →
      charCountAux (b :: (pre ++ rest)) = charCountAux (b :: (pre' ++ rest))) ∧
    charCountAux [195, 255] = some 1 ∧
    charCountAux [255] = none := by
  refine ⟨?_, ?_, ?_, ?_, ?_⟩
  · intro s n hb
    exact (charCount_characterisation s.length s le_rfl hb).1 n
  · intro s hb
    exact (charCount_characterisation s.length s le_rfl hb).2
  · intro b k pre pre' rest hb hw hp hp'
    have hcw : codeWidthAux b = some k := by
      rw [codeWidthAux_eq_specWidth hb, hw]
    have e1 : (pre ++ rest).drop (k - 1) = rest := by
      rw [← hp]; exact drop_len_append pre rest
    have e2 : (pre' ++ rest).drop (k - 1) = rest := by
      rw [← hp']; exact drop_len_append pre' rest
    have u1 : charCountAux (b :: (pre ++ rest)) =
        (charCountAux ((pre ++ rest).drop (k - 1))).map (· + 1) := by
      rw [charCountAux, hcw]
    have u2 : charCountAux (b :: (pre' ++ rest)) =
        (charCountAux ((pre' ++ rest).drop (k - 1))).map (· + 1) := by
      rw [charCountAux, hcw]
    rw [u1, u2, e1, e2]
  · have h1 : (195 : Nat) &&& 224 = 192 := rfl
    simp [charCountAux, codeWidthAux, h1]
  · have h1 : (255 : Nat) &&& 224 = 224 := rfl
    have h2 : (255 : Nat) &&& 240 = 240 := rfl
    have h3 : (255 : Nat) &&& 248 = 248 := rfl
    simp [charCountAux, codeWidthAux, h1, h2, h3]

/-- C4 witness: the characterisation applied to the concrete sequence
0xC3 0xFF, whose malformed continuation byte is skipped unexamined. -/
theorem c4_utf8_lead_byte_scan_witness :
    allBytes [195, 255] ∧ (charCountAux [195, 255] = some 1 ↔ Chunks [195, 255] 1) :=
  ⟨by decide, c4_utf8_lead_byte_scan.1 [195, 255] 1 (by decide)⟩

/-! ## Handle accounting lemmas for the instrumented conversion -/

theorem M_bind_eq {α β : Type} (m : M α) (f : α → M β) (s : St) :
    (m >>= f) s =
      match m s with
      | (.ok a, s') => f a s'
      | (.error e, s') => (.error e, s') := rfl

theorem M_pure_eq {α : Type} (a : α) (s : St) :
    (pure a : M α) s = (.ok a, s) := rfl

theorem M_bind_ok {α β : Type} {m : M α} {f : α → M β} {s s' : St} {a : α}
    (h : m s = (.ok a, s')) : (m >>= f) s = f a s' := by
  rw [M_bind_eq, h]

theorem M_bind_error {α β : Type} {m : M α} {f : α → M β} {s s' : St} {e : GErr}
    (h : m s = (.error e, s')) : (m >>= f) s = (.error e, s') := by
  rw [M_bind_eq, h]

/-- Converting a scalar Value allocates exactly one fresh handle and
succeeds. -/
theorem cppToFfiM_scalar (oracle : Nat → Bool) (v : Value)
    (hv : scalarV v = true) (s : St) :
    cppToFfiM oracle v s =
      (.ok s.nextId,
       { s with nextId := s.nextId + 1, live := s.nextId :: s.live,
                calls := s.calls + 1 }) := by
  cases v with
  | vnull => rfl
  | vbool b => rfl
  | vint n => rfl
  | vfloat d => rfl
  | vstr t => simp [scalarV] at hv
  | vobj es => simp [scalarV] at hv
  | varr es => simp [scalarV] at hv

/-- One successful loop step: the child handle is created and its ownership
transfers into the container (it leaves the live roots without being
freed). -/
theorem insertLoopM_cons_succ (oracle : Nat → Bool) (o : Nat) (k : List Nat)
    (v : Value) (rest : List (List Nat × Value)) (s : St)
    (hv : scalarV v = true) (hor : oracle s.ops = false) :
    insertLoopM oracle o ((k, v) :: rest) s =
      insertLoopM oracle o rest
        { s with nextId := s.nextId + 1, ops := s.ops + 1,
                 calls := s.calls + 2 } := by
  rw [insertLoopM]
  rw [M_bind_ok (cppToFfiM_scalar oracle v hv s)]
  have hins : insertOp oracle s.nextId
      ({ s with nextId := s.nextId + 1, live := s.nextId :: s.live,
                calls := s.calls + 1 } : St) =
      (.ok true,
       { s with nextId := s.nextId + 1, ops := s.ops + 1,
                calls := s.calls + 2 }) := by
    unfold insertOp
    simp [hor]
  rw [M_bind_ok hins, if_pos rfl]

/-- One failing loop step: the freshly created child handle is freed, then
the container handle, each exactly once, and the exception is thrown. -/
theorem insertLoopM_cons_fail (oracle : Nat → Bool) (o : Nat) (k : List Nat)
    (v : Value) (rest : List (List Nat × Value)) (s : St) (L0 : List Nat)
    (hv : scalarV v = true) (hlive : s.live = o :: L0) (hor : oracle s.ops = true) :
    insertLoopM oracle o ((k, v) :: rest) s =
      (.error (.serialiseErr ("Failed to insert object key: " ++ keyRender k)),
       { s with nextId := s.nextId + 1, live := L0,
                freed := o :: s.nextId :: s.freed,
                ops := s.ops + 1, calls := s.calls + 4 }) := by
  rw [insertLoopM]
  rw [M_bind_ok (cppToFfiM_scalar oracle v hv s)]
  have hins : insertOp oracle s.nextId
      ({ s with nextId := s.nextId + 1, live := s.nextId :: s.live,
                calls := s.calls + 1 } : St) =
      (.ok false,
       { s with nextId := s.nextId + 1, live := s.nextId :: s.live,
                ops := s.ops + 1, calls := s.calls + 2 }) := by
    unfold insertOp
    simp [hor]
  rw [M_bind_ok hins]
  rw [if_neg (by simp)]
  have hfree1 : freeV s.nextId
      ({ s with nextId := s.nextId + 1, live := s.nextId :: s.live,
                ops := s.ops + 1, calls := s.calls + 2 } : St) =
      (.ok (),
       { s with nextId := s.nextId + 1, live := s.live,
                freed := s.nextId :: s.freed,
                ops := s.ops + 1, calls := s.calls + 3 }) := by
    unfold freeV
    simp
  rw [M_bind_ok hfree1]
  have hfree2 : freeV o
      ({ s with nextId := s.nextId + 1, live := s.live,
                freed := s.nextId :: s.freed,
                ops := s.ops + 1, calls := s.calls + 3 } : St) =
      (.ok (),
       { s with nextId := s.nextId + 1, live := L0,
                freed := o :: s.nextId :: s.freed,
                ops := s.ops + 1, calls := s.calls + 4 }) := by
    unfold freeV
    rw [hlive]
    simp
  rw [M_bind_ok hfree2]
  rfl

/-- The corresponding successful push step. -/
theorem pushLoopM_cons_succ (oracle : Nat → Bool) (o : Nat)
    (v : Value) (rest : List Value) (s : St)
    (hv : scalarV v = true) (hor : oracle s.ops = false) :
    pushLoopM oracle o (v :: rest) s =
      pushLoopM oracle o rest
        { s with nextId := s.nextId + 1, ops := s.ops + 1,
                 calls := s.calls + 2 } := by
  rw [pushLoopM]
  rw [M_bind_ok (cppToFfiM_scalar oracle v hv s)]
  have hins : insertOp oracle s.nextId
      ({ s with nextId := s.nextId + 1, live := s.nextId :: s.live,
                calls := s.calls + 1 } : St) =
      (.ok true,
       { s with nextId := s.nextId + 1, ops := s.ops + 1,
                calls := s.calls + 2 }) := by
    unfold insertOp
    simp [hor]
  rw [M_bind_ok hins, if_pos rfl]

/-- The corresponding failing push step. -/
theorem pushLoopM_cons_fail (oracle : Nat → Bool) (o : Nat)
    (v : Value) (rest : List Value) (s : St) (L0 : List Nat)
    (hv : scalarV v = true) (hlive : s.live = o :: L0) (hor : oracle s.ops = true) :
    pushLoopM oracle o (v :: rest) s =
      (.error (.serialiseErr "Failed to push array element"),
       { s with nextId := s.nextId + 1, live := L0,
                freed := o :: s.nextId :: s.freed,
                ops := s.ops + 1, calls := s.calls + 4 }) := by
  rw [pushLoopM]
  rw [M_bind_ok (cppToFfiM_scalar oracle v hv s)]
  have hins : insertOp oracle s.nextId
      ({ s with nextId := s.nextId + 1, live := s.nextId :: s.live,
                calls := s.calls + 1 } : St) =
      (.ok false,
       { s with nextId := s.nextId + 1, live := s.nextId :: s.live,
                ops := s.ops + 1, calls := s.calls + 2 }) := by
    unfold insertOp
    simp [hor]
  rw [M_bind_ok hins]
  rw [if_neg (by simp)]
  have hfree1 : freeV s.nextId
      ({ s with nextId := s.nextId + 1, live := s.nextId :: s.live,
                ops := s.ops + 1, calls := s.calls + 2 } : St) =
      (.ok (),
       { s with nextId := s.nextId + 1, live := s.live,
                freed := s.nextId :: s.freed,
                ops := s.ops + 1, calls := s.calls + 3 }) := by
    unfold freeV
    simp
  rw [M_bind_ok hfree1]
  have hfree2 : freeV o
      ({ s with nextId := s.nextId + 1, live := s.live,
                freed := s.nextId :: s.freed,
                ops := s.ops + 1, calls := s.calls + 3 } : St) =
      (.ok (),
       { s with nextId := s.nextId + 1, live := L0,
                freed := o :: s.nextId :: s.freed,
                ops := s.ops + 1, calls := s.calls + 4 }) := by
    unfold freeV
    rw [hlive]
    simp
  rw [M_bind_ok hfree2]
  rfl

/-- The insertion loop over scalar children: on success nothing has been
freed and the container is still the top live root; on an insert failure
the failing child (a handle allocated during the loop) and the container
have each been freed exactly once, restoring the remaining live roots; the
bad flag never rises. -/
theorem insertLoopM_scalars (oracle : Nat → Bool) (o : Nat)
    (entries : List (List Nat × Value)) :
    ∀ (s : St) (L0 : List Nat),
      entries.all (fun p => scalarV p.2) = true →
      s.live = o :: L0 →
      (∃ s', insertLoopM oracle o entries s = (.ok (), s') ∧
        s'.live = o :: L0 ∧ s'.freed = s.freed ∧ s'.bad = s.bad ∧
        s.nextId ≤ s'.nextId) ∨
      (∃ e s' c, insertLoopM oracle o entries s = (.error e, s') ∧
        s'.live = L0 ∧ s'.freed = o :: c :: s.freed ∧ s'.bad = s.bad ∧
        s.nextId ≤ c) := by
  induction entries with
  | nil =>
    intro s L0 _ hlive
    exact .inl ⟨s, rfl, hlive, rfl, rfl, le_rfl⟩
  | cons p rest ih =>
    intro s L0 hall hlive
    obtain ⟨k, v⟩ := p
    have hv : scalarV v = true := by
      simp [List.all_cons] at hall
      exact hall.1
    have hrest : rest.all (fun p => scalarV p.2) = true := by
      simp [List.all_cons] at hall
      exact List.all_eq_true.mpr (fun x hx => hall.2 x.1 x.2 hx)
    cases horacle : oracle s.ops with
    | true =>
      rw [insertLoopM_cons_fail oracle o k v rest s L0 hv hlive horacle]
      exact .inr ⟨_, _, s.nextId, rfl, rfl, rfl, rfl, le_rfl⟩
    | false =>
      rw [insertLoopM_cons_succ oracle o k v rest s hv horacle]
      have hlive2 :
          ({ s with nextId := s.nextId + 1, ops := s.ops + 1,
                    calls := s.calls + 2 } : St).live = o :: L0 := hlive
      rcases ih
          { s with nextId := s.nextId + 1, ops := s.ops + 1,
                   calls := s.calls + 2 } L0 hrest hlive2 with
        ⟨s', h0, h1, h2, h3, h4⟩ | ⟨e, s', c, h0, h1, h2, h3, h4⟩
      · have h4' : s.nextId + 1 ≤ s'.nextId := h4
        exact .inl ⟨s', h0, h1, h2, h3, by omega⟩
      · have h4' : s.nextId + 1 ≤ c := h4
        exact .inr ⟨e, s', c, h0, h1, h2, h3, by omega⟩

/-- The push loop over scalar elements: identical accounting. -/
theorem pushLoopM_scalars (oracle : Nat → Bool) (o : Nat)
    (elems : List Value) :
    ∀ (s : St) (L0 : List Nat),
      elems.all scalarV = true →
      s.live = o :: L0 →
      (∃ s', pushLoopM oracle o elems s = (.ok (), s') ∧
        s'.live = o :: L0 ∧ s'.freed = s.freed ∧ s'.bad = s.bad ∧
        s.nextId ≤ s'.nextId) ∨
      (∃ e s' c, pushLoopM oracle o elems s = (.error e, s') ∧
        s'.live = L0 ∧ s'.freed = o :: c :: s.freed ∧ s'.bad = s.bad ∧
        s.nextId ≤ c) := by
  induction elems with
  | nil =>
    intro s L0 _ hlive
    exact .inl ⟨s, rfl, hlive, rfl, rfl, le_rfl⟩
  | cons v rest ih =>
    intro s L0 hall hlive
    have hv : scalarV v = true := by
      simp [List.all_cons] at hall
      exact hall.1
    have hrest : rest.all scalarV = true := by
      simp [List.all_cons] at hall
      exact List.all_eq_true.mpr (fun x hx => hall.2 x hx)
    cases horacle : oracle s.ops with
    | true =>
      rw [pushLoopM_cons_fail oracle o v rest s L0 hv hlive horacle]
      exact .inr ⟨_, _, s.nextId, rfl, rfl, rfl, rfl, le_rfl⟩
    | false =>
      rw [pushLoopM_cons_succ oracle o v rest s hv horacle]
      have hlive2 :
          ({ s with nextId := s.nextId + 1, ops := s.ops + 1,
                    calls := s.calls + 2 } : St).live = o :: L0 := hlive
      rcases ih
          { s with nextId := s.nextId + 1, ops := s.ops + 1,
                   calls := s.calls + 2 } L0 hrest hlive2 with
        ⟨s', h0, h1, h2, h3, h4⟩ | ⟨e, s', c, h0, h1, h2, h3, h4⟩
      · have h4' : s.nextId + 1 ≤ s'.nextId := h4
        exact .inl ⟨s', h0, h1, h2, h3, by omega⟩
      · have h4' : s.nextId + 1 ≤ c := h4
        exact .inr ⟨e, s', c, h0, h1, h2, h3, by omega⟩

/-- C5: converting an object or array of scalar children, for every oracle
of insert/push outcomes: when every insert/push reports success the run
succeeds, nothing is freed by the engine (ownership of each child has
transferred to the container) and the container is the one new live root;
when some insert/push reports a non-success code the run fails and the
freed list has gained exactly the failing child handle then the container
handle — each exactly once, both fresh to this conversion — with the live
roots restored and the bad flag (double free / invalid free) unchanged. -/
theorem c5_insert_failure_frees_both :
    ∀ (oracle : Nat → Bool) (entries : List (List Nat × Value))
      (elems : List Value) (s : St),
      entries.all (fun p => scalarV p.2) = true →
      elems.all scalarV = true →
      ((∀ h s', cppToFfiM oracle (.vobj entries) s = (.ok h, s') →
          h = s.nextId ∧ s'.live = s.nextId :: s.live ∧ s'.freed = s.freed ∧
          s'.bad = s.bad) ∧
       (∀ e s', cppToFfiM oracle (.vobj entries) s = (.error e, s') →
          ∃ c, s.nextId < c ∧ s'.freed = s.nextId :: c :: s.freed ∧
            s'.live = s.live ∧ s'.bad = s.bad)) ∧
      ((∀ h s', cppToFfiM oracle (.varr elems) s = (.ok h, s') →
          h = s.nextId ∧ s'.live = s.nextId :: s.live ∧ s'.freed = s.freed ∧
          s'.bad = s.bad) ∧
       (∀ e s', cppToFfiM oracle (.varr elems) s = (.error e, s') →
          ∃ c, s.nextId < c ∧ s'.freed = s.nextId :: c :: s.freed ∧
            s'.live = s.live ∧ s'.bad = s.bad)) := by
  intro oracle entries elems s hentries helems
  constructor
  · have hrun : cppToFfiM oracle (.vobj entries) s =
        (insertLoopM oracle s.nextId entries >>= fun _ => pure s.nextId)
        { s with nextId := s.nextId + 1, live := s.nextId :: s.live,
                 calls := s.calls + 1 } := rfl
    have hlive1 :
        ({ s with nextId := s.nextId + 1, live := s.nextId :: s.live,
                  calls := s.calls + 1 } : St).live = s.nextId :: s.live := rfl
    rcases insertLoopM_scalars oracle s.nextId entries
        { s with nextId := s.nextId + 1, live := s.nextId :: s.live,
                 calls := s.calls + 1 } s.live hentries hlive1 with
      ⟨s', hloop, h1, h2, h3, h4⟩ | ⟨e, s', c, hloop, h1, h2, h3, h4⟩
    · constructor
      · intro h s'' hrr
        rw [hrun, M_bind_ok hloop, M_pure_eq] at hrr
        injection hrr with hval hst
        injection hval with hval
        subst hval
        subst hst
        exact ⟨rfl, h1, h2, h3⟩
      · intro e s'' hrr
        rw [hrun, M_bind_ok hloop, M_pure_eq] at hrr
        cases hrr
    · constructor
      · intro h s'' hrr
        rw [hrun, M_bind_error hloop] at hrr
        cases hrr
      · intro e' s'' hrr
        rw [hrun, M_bind_error hloop] at hrr
        injection hrr with hval hst
        injection hval with hval
        subst hval
        subst hst
        have h4' : s.nextId + 1 ≤ c := h4
        exact ⟨c, by omega, h2, h1, h3⟩
  · have hrun : cppToFfiM oracle (.varr elems) s =
        (pushLoopM oracle s.nextId elems >>= fun _ => pure s.nextId)
        { s with nextId := s.nextId + 1, live := s.nextId :: s.live,
                 calls := s.calls + 1 } := rfl
    have hlive1 :
        ({ s with nextId := s.nextId + 1, live := s.nextId :: s.live,
                  calls := s.calls + 1 } : St).live = s.nextId :: s.live := rfl
    rcases pushLoopM_scalars oracle s.nextId elems
        { s with nextId := s.nextId + 1, live := s.nextId :: s.live,
                 calls := s.calls + 1 } s.live helems hlive1 with
      ⟨s', hloop, h1, h2, h3, h4⟩ | ⟨e, s', c, hloop, h1, h2, h3, h4⟩
    · constructor
      · intro h s'' hrr
        rw [hrun, M_bind_ok hloop, M_pure_eq] at hrr
        injection hrr with hval hst
        injection hval with hval
        subst hval
        subst hst
        exact ⟨rfl, h1, h2, h3⟩
      · intro e s'' hrr
        rw [hrun, M_bind_ok hloop, M_pure_eq] at hrr
        cases hrr
    · constructor
      · intro h s'' hrr
        rw [hrun, M_bind_error hloop] at hrr
        cases hrr
      · intro e' s'' hrr
        rw [hrun, M_bind_error hloop] at hrr
        injection hrr with hval hst
        injection hval with hval
        subst hval
        subst hst
        have h4' : s.nextId + 1 ≤ c := h4
        exact ⟨c, by omega, h2, h1, h3⟩

/-- C5 witness: one-entry object, the oracle failing the first insert: the
run fails with the freed list gaining exactly the child then the object
handle and the live roots restored. -/
theorem c5_insert_failure_frees_both_witness :
    (([([107], Value.vint 5)] : List (List Nat × Value)).all
        (fun p => scalarV p.2) = true) ∧
    (∀ e s', cppToFfiM (fun i => i == 0) (.vobj [([107], .vint 5)]) initSt =
        (.error e, s') →
      ∃ c, initSt.nextId < c ∧ s'.freed = initSt.nextId :: c :: initSt.freed ∧
        s'.live = initSt.live ∧ s'.bad = initSt.bad) :=
  ⟨by decide,
   ((c5_insert_failure_frees_both (fun i => i == 0) [([107], .vint 5)] []
      initSt (by decide) (by decide)).1).2⟩

/-- C6 evidence: converting the object whose single child is the invalid
string 0xFF, the child conversion throws before any insert; the run ends in
the invalid-UTF-8 error with the freshly created object handle 1 still a
live root and nothing freed — cpp_to_ffi holds the partially built object
in a raw pointer (conversion.cpp line 164), so the unwinding throw from the
recursive child conversion at line 171 leaks it. -/
theorem c6_child_failure_leaks_container :
    ∃ s' : St,
      cppToFfiM (fun _ => false) (.vobj [([97], .vstr [255])]) initSt =
        (.error (.serialiseErr "Invalid UTF-8 sequence in string"), s') ∧
      s'.live = [1] ∧ s'.freed = [] := by
  have h255 : charCountAux [255] = none := by
    have h1 : (255 : Nat) &&& 224 = 224 := rfl
    have h2 : (255 : Nat) &&& 240 = 240 := rfl
    have h3 : (255 : Nat) &&& 248 = 248 := rfl
    simp [charCountAux, codeWidthAux, h1, h2, h3]
  have hstr : cppToFfiM (fun _ => false) (.vstr [255])
      ({ nextId := 2, live := [1], freed := [], bad := false,
         ops := 0, calls := 1, strAlloc := 0, strFree := 0 } : St) =
      (.error (.serialiseErr "Invalid UTF-8 sequence in string"),
       { nextId := 2, live := [1], freed := [], bad := false,
         ops := 0, calls := 1, strAlloc := 0, strFree := 0 }) := by
    rw [cppToFfiM, h255]
    rfl
  have hloop : insertLoopM (fun _ => false) 1 [([97], .vstr [255])]
      ({ nextId := 2, live := [1], freed := [], bad := false,
         ops := 0, calls := 1, strAlloc := 0, strFree := 0 } : St) =
      (.error (.serialiseErr "Invalid UTF-8 sequence in string"),
       { nextId := 2, live := [1], freed := [], bad := false,
         ops := 0, calls := 1, strAlloc := 0, strFree := 0 }) := by
    rw [insertLoopM]
    exact M_bind_error hstr
  refine ⟨{ nextId := 2, live := [1], freed := [], bad := false,
            ops := 0, calls := 1, strAlloc := 0, strFree := 0 }, ?_, rfl, rfl⟩
  have hrun : cppToFfiM (fun _ => false) (.vobj [([97], .vstr [255])]) initSt =
      (insertLoopM (fun _ => false) 1 [([97], .vstr [255])] >>= fun _ => pure 1)
      { nextId := 2, live := [1], freed := [], bad := false,
        ops := 0, calls := 1, strAlloc := 0, strFree := 0 } := rfl
  rw [hrun, M_bind_error hloop]

/-! ## Error-path plumbing of the public entry points (claim C8) -/

/-- C8: on every engine failure the public entry points fetch the foreign
last-error message, copy it into the locally raised typed error, and free
the foreign string exactly once (one string allocated, one freed), leaving
the handle accounting (live, freed, bad) untouched for parse and read and
releasing both conversion handles for write; when the engine reports no
message, parse raises the fallback text.  The result type itself guarantees
that each entry point yields either one Value or one typed error. -/
theorem c8_error_message_plumbing :
    (∀ (E : Eng) (input : String) (s : St) (msg : String),
      E.parseCode ≠ .ok → E.errMsg = some msg →
      parseM E input s =
        (.error (.parseErr msg),
         { s with calls := s.calls + 1 + 1 + 1,
                  strAlloc := s.strAlloc + 1, strFree := s.strFree + 1 })) ∧
    (∀ (E : Eng) (input : String) (s : St),
      E.parseCode ≠ .ok → E.errMsg = none →
      parseM E input s =
        (.error (.parseErr "Parse failed"),
         { s with calls := s.calls + 1 + 1 })) ∧
    (∀ (E : Eng) (path : String) (s : St) (msg : String),
      E.readCode ≠ .ok → E.errMsg = some msg →
      readIoM E path s =
        (.error (.ioErr ("Failed to read I/O file " ++ path ++ ": " ++ msg)),
         { s with calls := s.calls + 1 + 1 + 1,
                  strAlloc := s.strAlloc + 1, strFree := s.strFree + 1 })) ∧
    (∀ (E : Eng) (oracle : Nat → Bool) (v : Value) (path : String)
       (cfg : CppConfig) (s : St) (msg : String),
      validateCfg cfg = .ok () → scalarV v = true → E.cfgNewOk = true →
      E.writeCode ≠ .ok → E.errMsg = some msg →
      writeIoM E oracle v path cfg s =
        (.error (.ioErr ("Failed to write I/O file " ++ path ++ ": " ++ msg)),
         { s with nextId := s.nextId + 1 + 1,
                  freed := s.nextId :: (s.nextId + 1) :: s.freed,
                  calls := s.calls + 1 + 1 + 1 + 1 + 1 + 1 + 1,
                  strAlloc := s.strAlloc + 1, strFree := s.strFree + 1 })) := by
  refine ⟨?_, ?_, ?_, ?_⟩
  · intro E input s msg hcode hmsg
    have hp : gblnParseOp E s =
        (.ok (E.parseCode, E.parseVal), { s with calls := s.calls + 1 }) := rfl
    unfold parseM
    rw [M_bind_ok hp]
    rw [if_pos hcode]
    have hm : lastErrorMsgOp E ({ s with calls := s.calls + 1 } : St) =
        (.ok (some msg),
         { s with calls := s.calls + 1 + 1, strAlloc := s.strAlloc + 1 }) := by
      unfold lastErrorMsgOp
      rw [hmsg]
      rfl
    rw [M_bind_ok hm]
    rfl
  · intro E input s hcode hmsg
    have hp : gblnParseOp E s =
        (.ok (E.parseCode, E.parseVal), { s with calls := s.calls + 1 }) := rfl
    unfold parseM
    rw [M_bind_ok hp]
    rw [if_pos hcode]
    have hm : lastErrorMsgOp E ({ s with calls := s.calls + 1 } : St) =
        (.ok none, { s with calls := s.calls + 1 + 1 }) := by
      unfold lastErrorMsgOp
      rw [hmsg]
      rfl
    rw [M_bind_ok hm]
    rfl
  · intro E path s msg hcode hmsg
    have hp : gblnReadIoOp E s =
        (.ok (E.readCode, E.readVal), { s with calls := s.calls + 1 }) := rfl
    unfold readIoM
    rw [M_bind_ok hp]
    rw [if_pos hcode]
    have hm : lastErrorMsgOp E ({ s with calls := s.calls + 1 } : St) =
        (.ok (some msg),
         { s with calls := s.calls + 1 + 1, strAlloc := s.strAlloc + 1 }) := by
      unfold lastErrorMsgOp
      rw [hmsg]
      rfl
    rw [M_bind_ok hm]
    rfl
  · intro E oracle v path cfg s msg hvalid hscalar hcfg hcode hmsg
    cases v
    case vstr => simp [scalarV] at hscalar
    case vobj => simp [scalarV] at hscalar
    case varr => simp [scalarV] at hscalar
    all_goals
      simp only [writeIoM, hvalid, M_bind_eq, cppToFfiM, allocV, gblnConfigNewOp,
        hcfg, if_true, gblnWriteIoOp, lastErrorMsgOp, hmsg, stringFreeOp, freeV,
        throwG, M_pure_eq, ne_eq, hcode, not_false_eq_true, if_pos,
        Option.getD_some, Option.isSome_some]
    all_goals
      norm_num
    all_goals
      simp [List.erase_cons_head]

/-- C8 witness: a failing parse with engine message "boom" raises
ParseError("boom") and frees the one fetched engine string. -/
theorem c8_error_message_plumbing_witness :
    ((⟨.errInvalidSyntax, none, .ok, none, .ok, true, some "boom"⟩ : Eng).parseCode ≠ .ok) ∧
    parseM ⟨.errInvalidSyntax, none, .ok, none, .ok, true, some "boom"⟩ "x" initSt =
      (.error (.parseErr "boom"),
       { initSt with calls := initSt.calls + 1 + 1 + 1,
                     strAlloc := initSt.strAlloc + 1,
                     strFree := initSt.strFree + 1 }) :=
  ⟨by decide,
   c8_error_message_plumbing.1 ⟨.errInvalidSyntax, none, .ok, none, .ok, true, some "boom"⟩
     "x" initSt "boom" (by decide) rfl⟩

/-! ## Round trip of valid NUL-free Value trees (claim C1) -/

theorem truncAtNul_noNul : ∀ {s : List Nat}, noNul s = true → truncAtNul s = s := by
  intro s
  induction s with
  | nil => intro _; rfl
  | cons a t ih =>
    intro h
    simp only [noNul, List.all_cons, Bool.and_eq_true, decide_eq_true_eq] at h
    have ht : noNul t = true := h.2
    rw [truncAtNul, List.takeWhile_cons]
    rw [if_pos (by simp [h.1])]
    rw [show List.takeWhile (fun b => b ≠ 0) t = truncAtNul t from rfl, ih ht]

theorem listLt_irrefl (a : List Nat) : listLt a a = false := by
  induction a with
  | nil => rfl
  | cons x t ih => simp [listLt, ih]

theorem listLt_asymm : ∀ {a b : List Nat}, listLt a b = true → listLt b a = false := by
  intro a
  induction a with
  | nil =>
    intro b h
    cases b with
    | nil => simp [listLt] at h
    | cons y t => simp [listLt]
  | cons x t ih =>
    intro b h
    cases b with
    | nil => simp [listLt] at h
    | cons y u =>
      simp only [listLt] at h ⊢
      by_cases hxy : x < y
      · rw [if_neg (by omega), if_pos hxy]
      · rw [if_neg hxy] at h
        by_cases hyx : y < x
        · rw [if_pos hyx] at h
          cases h
        · rw [if_neg hyx] at h
          rw [if_neg (by omega), if_neg (by omega)]
          exact ih h

theorem listLt_ne {a b : List Nat} (h : listLt a b = true) : a ≠ b := by
  intro heq
  subst heq
  rw [listLt_irrefl] at h
  cases h

theorem listLt_trans : ∀ {a b c : List Nat},
    listLt a b = true → listLt b c = true → listLt a c = true := by
  intro a
  induction a with
  | nil =>
    intro b c hab hbc
    cases b with
    | nil => simp [listLt] at hab
    | cons y u =>
      cases c with
      | nil => simp [listLt] at hbc
      | cons z w => simp [listLt]
  | cons x t ih =>
    intro b c hab hbc
    cases b with
    | nil => simp [listLt] at hab
    | cons y u =>
      cases c with
      | nil => simp [listLt] at hbc
      | cons z w =>
        simp only [listLt] at hab hbc ⊢
        by_cases hxy : x < y
        · rw [if_pos hxy] at hab
          by_cases hyz : y < z
          · rw [if_pos (by omega)]
          · rw [if_neg hyz] at hbc
            by_cases hzy : z < y
            · rw [if_pos hzy] at hbc; cases hbc
            · rw [if_pos (by omega)]
        · rw [if_neg hxy] at hab
          by_cases hyx : y < x
          · rw [if_pos hyx] at hab; cases hab
          · rw [if_neg hyx] at hab
            by_cases hyz : y < z
            · rw [if_pos (by omega)]
            · rw [if_neg hyz] at hbc
              by_cases hzy : z < y
              · rw [if_pos hzy] at hbc; cases hbc
              · rw [if_neg hzy] at hbc
                rw [if_neg (by omega), if_neg (by omega)]
                exact ih hab hbc

theorem keysSorted_cons {a : List Nat} {l : List (List Nat)}
    (h : keysSorted (a :: l) = true) :
    keysSorted l = true ∧ ∀ b ∈ l, listLt a b = true := by
  induction l generalizing a with
  | nil => exact ⟨rfl, by simp⟩
  | cons b t ih =>
    simp only [keysSorted, Bool.and_eq_true] at h
    obtain ⟨hab, hrest⟩ := h
    obtain ⟨ht, hall⟩ := ih hrest
    refine ⟨hrest, ?_⟩
    intro c hc
    rcases List.mem_cons.mp hc with hcb | hct
    · subst hcb; exact hab
    · exact listLt_trans hab (hall c hct)

theorem keysSorted_pairwise : ∀ {l : List (List Nat)}, keysSorted l = true →
    List.Pairwise (fun a b => listLt a b = true) l := by
  intro l
  induction l with
  | nil => intro _; exact List.Pairwise.nil
  | cons a t ih =>
    intro h
    obtain ⟨ht, hall⟩ := keysSorted_cons h
    exact List.Pairwise.cons hall (ih ht)

theorem mapInsert_gt : ∀ (acc : List (List Nat × Value)) (k : List Nat) (v : Value),
    (∀ p ∈ acc, listLt p.1 k = true) →
    mapInsert acc k v = acc ++ [(k, v)] := by
  intro acc
  induction acc with
  | nil => intro k v _; rfl
  | cons p rest ih =>
    intro k v h
    obtain ⟨k', v'⟩ := p
    have hlt : listLt k' k = true := h (k', v') (List.mem_cons_self _ _)
    have hne : k ≠ k' := fun heq => listLt_ne hlt heq.symm
    rw [mapInsert]
    rw [if_neg hne, if_neg (by rw [listLt_asymm hlt]; exact Bool.false_ne_true)]
    rw [ih k v (fun q hq => h q (List.mem_cons_of_mem _ hq))]
    rfl

theorem validValueNFEntries_mem :
    ∀ {entries : List (List Nat × Value)}, validValueNFEntries entries = true →
      ∀ p ∈ entries, validValueNF p.2 = true := by
  intro entries
  induction entries with
  | nil => intro _ p hp; cases hp
  | cons q rest ih =>
    intro h p hp
    obtain ⟨k, v⟩ := q
    rw [validValueNFEntries, Bool.and_eq_true] at h
    rcases List.mem_cons.mp hp with hq | hmem
    · subst hq; exact h.1
    · exact ih h.2 p hmem

theorem validValueNFElems_mem :
    ∀ {elems : List Value}, validValueNFElems elems = true →
      ∀ v ∈ elems, validValueNF v = true := by
  intro elems
  induction elems with
  | nil => intro _ v hv; cases hv
  | cons w rest ih =>
    intro h v hv
    rw [validValueNFElems, Bool.and_eq_true] at h
    rcases List.mem_cons.mp hv with hq | hmem
    · subst hq; exact h.1
    · exact ih h.2 v hmem

/-- The pointwise relation between an object's C++ entries and its foreign
entries for a NUL-free tree: equal keys, and the child converts there and
back. -/
def EntryRel (p : List Nat × Value) (q : List Nat × FValue) : Prop :=
  p.1 = q.1 ∧ cppToFfi p.2 = .ok q.2 ∧ ffiToCpp q.2 = .ok p.2

theorem exists_entry_images :
    ∀ (entries : List (List Nat × Value)),
      (∀ p ∈ entries, ∃ fv, cppToFfi p.2 = .ok fv ∧ ffiToCpp fv = .ok p.2) →
      ∃ fes, List.Forall₂ EntryRel entries fes := by
  intro entries
  induction entries with
  | nil => intro _; exact ⟨[], List.Forall₂.nil⟩
  | cons p rest ih =>
    intro h
    obtain ⟨fv, h1, h2⟩ := h p (List.mem_cons_self _ _)
    obtain ⟨fes, hrel⟩ := ih (fun q hq => h q (List.mem_cons_of_mem _ hq))
    exact ⟨(p.1, fv) :: fes, List.Forall₂.cons ⟨rfl, h1, h2⟩ hrel⟩

theorem entry_images_keys :
    ∀ {entries : List (List Nat × Value)} {fes : List (List Nat × FValue)},
      List.Forall₂ EntryRel entries fes →
      fes.map Prod.fst = entries.map Prod.fst := by
  intro entries fes h
  induction h with
  | nil => rfl
  | cons hpq _ ih =>
    simp only [List.map_cons, ih, List.cons.injEq]
    exact ⟨hpq.1.symm, trivial⟩

/-- The object insertion loop succeeds on NUL-free pairwise-distinct keys,
appending each converted child in order. -/
theorem convEntries_ok :
    ∀ {entries : List (List Nat × Value)} {fes : List (List Nat × FValue)},
      List.Forall₂ EntryRel entries fes →
      ∀ (acc : List (List Nat × FValue)),
      (∀ p ∈ entries, noNul p.1 = true) →
      (∀ q ∈ acc, ∀ p ∈ entries, q.1 ≠ p.1) →
      List.Pairwise (fun a b => a.1 ≠ b.1) entries →
      convEntries acc entries = .ok (acc ++ fes) := by
  intro entries fes hrel
  induction hrel with
  | nil =>
    intro acc _ _ _
    simp [convEntries]
  | @cons p q rest frest hpq hrest ih =>
    intro acc hnul hacc hpair
    obtain ⟨hk, hcf, hfc⟩ := hpq
    rw [convEntries]
    rw [hcf]
    have htr : truncAtNul p.1 = p.1 :=
      truncAtNul_noNul (hnul p (List.mem_cons_self _ _))
    have hins : insertF acc (truncAtNul p.1) q.2 = .ok (acc ++ [(p.1, q.2)]) := by
      rw [htr]
      unfold insertF
      rw [if_neg]
      simp only [List.any_eq_true, not_exists, not_and]
      intro r hr
      exact fun hrk =>
        (hacc r hr p (List.mem_cons_self _ _)) (by simpa using hrk)
    have hq : q = (p.1, q.2) := by
      obtain ⟨q1, q2⟩ := q
      simp at hk ⊢
      exact hk.symm
    have hacc' : ∀ r ∈ acc ++ [(p.1, q.2)], ∀ p' ∈ rest, r.1 ≠ p'.1 := by
      intro r hr p' hp'
      rcases List.mem_append.mp hr with hr1 | hr2
      · exact hacc r hr1 p' (List.mem_cons_of_mem _ hp')
      · simp at hr2
        subst hr2
        have := (List.pairwise_cons.mp hpair).1 p' hp'
        simpa using this
    have hrec := ih (acc ++ [(p.1, q.2)])
      (fun p' hp' => hnul p' (List.mem_cons_of_mem _ hp'))
      hacc' (List.pairwise_cons.mp hpair).2
    show (insertF acc (truncAtNul p.1) q.2).bind (fun a => convEntries a rest) =
      Except.ok (acc ++ q :: frest)
    rw [hins]
    show convEntries (acc ++ [(p.1, q.2)]) rest = Except.ok (acc ++ q :: frest)
    rw [hrec, ← hq]
    simp

/-- The array loop succeeds elementwise. -/
theorem convElems_ok :
    ∀ {elems : List Value} {fes : List FValue},
      List.Forall₂ (fun v fv => cppToFfi v = .ok fv) elems fes →
      convElems elems = .ok fes := by
  intro elems fes h
  induction h with
  | nil => rfl
  | @cons v fv rest frest hv hrest ih =>
    rw [convElems, hv]
    show (convElems rest).bind (fun es => Except.ok (fv :: es)) =
      Except.ok (fv :: frest)
    rw [ih]
    rfl

/-- With pairwise-distinct keys, gbln_object_get finds each entry's own
value. -/
theorem lookupF_self :
    ∀ {fes : List (List Nat × FValue)},
      List.Pairwise (fun a b => a.1 ≠ b.1) fes →
      ∀ q ∈ fes, lookupF fes q.1 = some q.2 := by
  intro fes
  induction fes with
  | nil => intro _ q hq; cases hq
  | cons r rest ih =>
    intro hp q hq
    obtain ⟨hhead, htail⟩ := List.pairwise_cons.mp hp
    rcases List.mem_cons.mp hq with hq1 | hq2
    · subst hq1
      unfold lookupF
      rw [List.find?_cons_of_pos _ (by simp)]
      rfl
    · have hne : r.1 ≠ q.1 := hhead q hq2
      unfold lookupF
      rw [List.find?_cons_of_neg _ (by simpa using hne)]
      exact ih htail q hq2

/-- One step of the key loop when the key is found. -/
theorem buildMap_cons {entries : List (List Nat × FValue)} {k : List Nat}
    {ks : List (List Nat)} {acc : List (List Nat × Value)} {fv : FValue}
    (hf : lookupF entries k = some fv) :
    buildMap entries (k :: ks) acc =
      (ffiToCpp fv).bind (fun vv => buildMap entries ks (mapInsert acc k vv)) := by
  rw [buildMap, hf]
  rfl

/-- The key loop of ffi_to_cpp over a strictly ascending suffix: each looked
up child converts back, and the ordered map insertions append in order. -/
theorem buildMap_go :
    ∀ (fes : List (List Nat × FValue)) (sufF : List (List Nat × FValue))
      (sufV : List (List Nat × Value)),
      List.Forall₂ (fun q p => q.1 = p.1 ∧ ffiToCpp q.2 = .ok p.2) sufF sufV →
      (∀ q ∈ sufF, lookupF fes q.1 = some q.2) →
      List.Pairwise (fun a b => listLt a.1 b.1 = true) sufF →
      ∀ (accv : List (List Nat × Value)),
        (∀ a ∈ accv, ∀ q ∈ sufF, listLt a.1 q.1 = true) →
        buildMap fes (sufF.map Prod.fst) accv = .ok (accv ++ sufV) := by
  intro fes sufF sufV hrel
  induction hrel with
  | nil =>
    intro _ _ accv _
    simp [buildMap]
  | @cons q p rest vrest hqp hrest ih =>
    intro hlook hpair accv haccv
    obtain ⟨hk, hconv⟩ := hqp
    rw [List.map_cons, buildMap_cons (hlook q (List.mem_cons_self _ _))]
    rw [hconv]
    have hmi : mapInsert accv q.1 p.2 = accv ++ [(q.1, p.2)] :=
      mapInsert_gt accv q.1 p.2
        (fun a ha => haccv a ha q (List.mem_cons_self _ _))
    have hp' : (q.1, p.2) = p := by
      obtain ⟨p1, p2⟩ := p
      simp at hk ⊢
      exact hk
    have haccv' : ∀ a ∈ accv ++ [(q.1, p.2)], ∀ r ∈ rest, listLt a.1 r.1 = true := by
      intro a ha r hr
      rcases List.mem_append.mp ha with ha1 | ha2
      · exact haccv a ha1 r (List.mem_cons_of_mem _ hr)
      · simp at ha2
        subst ha2
        exact (List.pairwise_cons.mp hpair).1 r hr
    have hrec := ih (fun r hr => hlook r (List.mem_cons_of_mem _ hr))
      (List.pairwise_cons.mp hpair).2 (accv ++ [(q.1, p.2)]) haccv'
    show buildMap fes (List.map Prod.fst rest) (mapInsert accv q.1 p.2) =
      Except.ok (accv ++ p :: vrest)
    rw [hmi, hrec, hp']
    simp

/-- The index loop of ffi_to_cpp converts elementwise. -/
theorem backElems_ok :
    ∀ {fes : List FValue} {elems : List Value},
      List.Forall₂ (fun fv v => ffiToCpp fv = .ok v) fes elems →
      backElems fes = .ok elems := by
  intro fes elems h
  induction h with
  | nil => rw [backElems]
  | @cons fv v rest vrest hv hrest ih =>
    rw [backElems, hv]
    show (backElems rest).bind (fun vs => Except.ok (v :: vs)) =
      Except.ok (v :: vrest)
    rw [ih]
    rfl

/-- The widening read restores exactly the integer the optimal selector
stored. -/
theorem ffiToCpp_optimal_int (n : Int) (h1 : -(2 ^ 63) ≤ n) (h2 : n < 2 ^ 63) :
    ffiToCpp (createOptimalInt n) = .ok (.vint n) := by
  have hval : ∀ m : Int, -(2 ^ 63) ≤ m → m < 2 ^ 63 → asI64 m = .ok (.vint m) := by
    intro m hm1 hm2
    unfold asI64
    rw [if_pos ⟨hm1, hm2⟩]
  unfold createOptimalInt
  by_cases hp : 0 ≤ n
  · rw [if_pos hp]
    by_cases h8 : n ≤ 255
    · rw [if_pos h8, ffiToCpp, Int.toNat_of_nonneg hp]
      exact hval n h1 h2
    · rw [if_neg h8]
      by_cases h16 : n ≤ 65535
      · rw [if_pos h16, ffiToCpp, Int.toNat_of_nonneg hp]
        exact hval n h1 h2
      · rw [if_neg h16]
        by_cases h32 : n ≤ 4294967295
        · rw [if_pos h32, ffiToCpp, Int.toNat_of_nonneg hp]
          exact hval n h1 h2
        · rw [if_neg h32, ffiToCpp, Int.toNat_of_nonneg hp]
          exact hval n h1 h2
  · rw [if_neg hp]
    by_cases h8 : -128 ≤ n ∧ n ≤ 127
    · rw [if_pos h8, ffiToCpp]
      exact hval n h1 h2
    · rw [if_neg h8]
      by_cases h16 : -32768 ≤ n ∧ n ≤ 32767
      · rw [if_pos h16, ffiToCpp]
        exact hval n h1 h2
      · rw [if_neg h16]
        by_cases h32 : -2147483648 ≤ n ∧ n ≤ 2147483647
        · rw [if_pos h32, ffiToCpp]
          exact hval n h1 h2
        · rw [if_neg h32, ffiToCpp]
          exact hval n h1 h2

/-- A NUL-free string of at most 1024 characters crosses the boundary and
back unchanged. -/
theorem roundTrip_string (t : List Nat) (hnn : noNul t = true) (c : Nat)
    (hc : charCountAux t = some c) (hle : c ≤ 1024) :
    ∃ b, cppToFfi (.vstr t) = .ok (.fstr t b) ∧
      ffiToCpp (.fstr t b) = .ok (.vstr t) := by
  obtain ⟨b, hb, _, _, _, _⟩ := bucketOf_spec c hle
  refine ⟨b, ?_, ?_⟩
  · rw [cppToFfi]
    simp only [createOptimalString, hc, hb, truncAtNul_noNul hnn]
  · rw [ffiToCpp, truncAtNul_noNul hnn]

theorem sizeOf_entry_val_lt {entries : List (List Nat × Value)}
    {p : List Nat × Value} (hp : p ∈ entries) :
    sizeOf p.2 < sizeOf (Value.vobj entries) := by
  have h1 := List.sizeOf_lt_of_mem hp
  obtain ⟨k, v⟩ := p
  simp only [Prod.mk.sizeOf_spec] at h1
  simp only [Value.vobj.sizeOf_spec]
  omega

theorem sizeOf_elem_lt {elems : List Value} {v : Value} (hv : v ∈ elems) :
    sizeOf v < sizeOf (Value.varr elems) := by
  have h1 := List.sizeOf_lt_of_mem hv
  simp only [Value.varr.sizeOf_spec]
  omega

theorem exists_elem_images :
    ∀ (elems : List Value),
      (∀ v ∈ elems, ∃ fv, cppToFfi v = .ok fv ∧ ffiToCpp fv = .ok v) →
      ∃ fes, List.Forall₂
        (fun v fv => cppToFfi v = .ok fv ∧ ffiToCpp fv = .ok v) elems fes := by
  intro elems
  induction elems with
  | nil => intro _; exact ⟨[], List.Forall₂.nil⟩
  | cons v rest ih =>
    intro h
    obtain ⟨fv, h1, h2⟩ := h v (List.mem_cons_self _ _)
    obtain ⟨fes, hrel⟩ := ih (fun w hw => h w (List.mem_cons_of_mem _ hw))
    exact ⟨fv :: fes, List.Forall₂.cons ⟨h1, h2⟩ hrel⟩

/-- Round trip of every valid NUL-free Value tree: cpp_to_ffi succeeds and
ffi_to_cpp restores exactly the original tree. -/
theorem roundTrip_value : ∀ (N : Nat) (V : Value), sizeOf V ≤ N →
    validValueNF V = true →
    ∃ F, cppToFfi V = .ok F ∧ ffiToCpp F = .ok V := by
  intro N
  induction N with
  | zero =>
    intro V hV _
    exfalso
    have : 0 < sizeOf V := by
      cases V <;> simp_arith
    omega
  | succ N ih =>
    intro V hV hvalid
    cases V with
    | vnull => exact ⟨.fnull, by rw [cppToFfi], by rw [ffiToCpp]⟩
    | vbool b => exact ⟨.fbool b, by rw [cppToFfi], by rw [ffiToCpp]⟩
    | vfloat d => exact ⟨.ff64 d, by rw [cppToFfi], by rw [ffiToCpp]⟩
    | vint n =>
      rw [validValueNF, Bool.and_eq_true, decide_eq_true_eq, decide_eq_true_eq]
        at hvalid
      exact ⟨createOptimalInt n, by rw [cppToFfi],
        ffiToCpp_optimal_int n hvalid.1 hvalid.2⟩
    | vstr t =>
      rw [validValueNF, Bool.and_eq_true] at hvalid
      obtain ⟨hnn, hcnt⟩ := hvalid
      cases hcc : charCountAux t with
      | none => rw [hcc] at hcnt; cases hcnt
      | some c =>
        rw [hcc, decide_eq_true_eq] at hcnt
        obtain ⟨b, hb1, hb2⟩ := roundTrip_string t hnn c hcc hcnt
        exact ⟨.fstr t b, hb1, hb2⟩
    | vobj entries =>
      rw [validValueNF, Bool.and_eq_true, Bool.and_eq_true] at hvalid
      obtain ⟨⟨hsort, hnulall⟩, hents⟩ := hvalid
      have hnul : ∀ p ∈ entries, noNul p.1 = true := by
        intro p hp
        rw [List.all_eq_true] at hnulall
        exact hnulall p.1 (List.mem_map_of_mem Prod.fst hp)
      have hchild : ∀ p ∈ entries, ∃ fv, cppToFfi p.2 = .ok fv ∧
          ffiToCpp fv = .ok p.2 := by
        intro p hp
        have hsz : sizeOf p.2 < sizeOf (Value.vobj entries) :=
          sizeOf_entry_val_lt hp
        exact ih p.2 (by omega) (validValueNFEntries_mem hents p hp)
      obtain ⟨fes, hrel⟩ := exists_entry_images entries hchild
      have hpairLt : List.Pairwise (fun a b => listLt a.1 b.1 = true) entries := by
        have := keysSorted_pairwise hsort
        rw [List.pairwise_map] at this
        exact this
      have hpairNe : List.Pairwise (fun a b => a.1 ≠ b.1) entries :=
        hpairLt.imp (fun h => listLt_ne h)
      have hconv : convEntries [] entries = .ok fes := by
        have := convEntries_ok hrel [] hnul (by intro q hq; cases hq) hpairNe
        simpa using this
      have hkeys : fes.map Prod.fst = entries.map Prod.fst :=
        entry_images_keys hrel
      have hpairLtF : List.Pairwise (fun a b => listLt a.1 b.1 = true) fes := by
        have h1 := keysSorted_pairwise hsort
        rw [← hkeys, List.pairwise_map] at h1
        exact h1
      have hpairNeF : List.Pairwise (fun a b => a.1 ≠ b.1) fes :=
        hpairLtF.imp (fun h => listLt_ne h)
      have hflip : List.Forall₂
          (fun q p => q.1 = p.1 ∧ ffiToCpp q.2 = .ok p.2) fes entries :=
        hrel.flip.imp (fun a b h => ⟨h.1.symm, h.2.2⟩)
      have hlook : ∀ q ∈ fes, lookupF fes q.1 = some q.2 :=
        lookupF_self hpairNeF
      have hbm : buildMap fes (fes.map Prod.fst) [] = .ok entries := by
        have := buildMap_go fes fes entries hflip hlook hpairLtF []
          (by intro a ha; cases ha)
        simpa using this
      refine ⟨.fobj fes, ?_, ?_⟩
      · rw [cppToFfi, hconv]
        rfl
      · rw [ffiToCpp, hbm]
        rfl
    | varr elems =>
      rw [show validValueNF (Value.varr elems) = validValueNFElems elems from rfl]
        at hvalid
      have hchild : ∀ v ∈ elems, ∃ fv, cppToFfi v = .ok fv ∧
          ffiToCpp fv = .ok v := by
        intro v hv
        have hsz : sizeOf v < sizeOf (Value.varr elems) := sizeOf_elem_lt hv
        exact ih v (by omega) (validValueNFElems_mem hvalid v hv)
      obtain ⟨fes, hrel⟩ := exists_elem_images elems hchild
      have hconv : convElems elems = .ok fes :=
        convElems_ok (hrel.imp (fun a b h => h.1))
      have hback : backElems fes = .ok elems :=
        backElems_ok (hrel.flip.imp (fun a b h => h.2))
      refine ⟨.farr fes, ?_, ?_⟩
      · rw [cppToFfi, hconv]
        rfl
      · rw [ffiToCpp, hback]
        rfl

/-- C1 counterexample: the string of three NUL bytes is a valid Value tree
(valid UTF-8, three characters), yet its compact text differs after a
conversion round trip: the original bucket is 4 (three characters) while
the round-tripped string — truncated to empty by the C-string boundary of
gbln_value_new_str — gets bucket 2, and the compact form prints the bucket
in the type annotation. -/
theorem c1_round_trip_counterexample :
    validValue (.vstr [0, 0, 0]) = true ∧
    cppToFfi (.vstr [0, 0, 0]) = .ok (.fstr [] 4) ∧
    ffiToCpp (.fstr [] 4) = .ok (.vstr []) ∧
    compactText serModel (.vstr []) = .ok "<s2>()" ∧
    compactText serModel (.vstr [0, 0, 0]) = .ok "<s4>()" ∧
    compactText serModel (.vstr []) ≠ compactText serModel (.vstr [0, 0, 0]) := by
  have hcc3 : charCountAux [0, 0, 0] = some 3 := by
    simp [charCountAux, codeWidthAux]
  have hcc0 : charCountAux ([] : List Nat) = some 0 := by
    simp [charCountAux]
  have hb3 : bucketOf 3 = some 4 := by decide
  have hb0 : bucketOf 0 = some 2 := by decide
  have hconv3 : cppToFfi (.vstr [0, 0, 0]) = .ok (.fstr [] 4) := by
    rw [cppToFfi]
    simp only [createOptimalString, hcc3, hb3]
    rfl
  have hconv0 : cppToFfi (.vstr []) = .ok (.fstr [] 2) := by
    rw [cppToFfi]
    simp only [createOptimalString, hcc0, hb0]
    rfl
  have e0 : compactText serModel (.vstr []) = .ok "<s2>()" := by
    unfold compactText
    rw [hconv0]
    rfl
  have e3 : compactText serModel (.vstr [0, 0, 0]) = .ok "<s4>()" := by
    unfold compactText
    rw [hconv3]
    rfl
  refine ⟨?_, hconv3, ?_, e0, e3, ?_⟩
  · simp [validValue, hcc3]
  · rw [ffiToCpp]
    rfl
  · rw [e0, e3]
    intro h
    injection h with h'
    exact absurd h' (by decide)

/-- C1 amended: for every valid Value tree whose strings and object keys
contain no NUL byte, converting with cpp_to_ffi, converting back with
ffi_to_cpp, and serializing the result in compact form yields exactly the
same text as serializing the tree directly, for every engine compact
serializer (the round-tripped tree is the original, so the foreign trees
handed to the serializer coincide). -/
theorem c1_round_trip_compact :
    ∀ (ser : FValue → String) (V : Value), validValueNF V = true →
      ∃ F V', cppToFfi V = .ok F ∧ ffiToCpp F = .ok V' ∧
        compactText ser V' = compactText ser V ∧
        compactText ser V = .ok (ser F) := by
  intro ser V h
  obtain ⟨F, h1, h2⟩ := roundTrip_value (sizeOf V) V le_rfl h
  refine ⟨F, V, h1, h2, rfl, ?_⟩
  unfold compactText
  rw [h1]
  rfl

/-- C1 witness: a concrete two-entry object round-trips with identical
compact text under the model serializer. -/
theorem c1_round_trip_compact_witness :
    validValueNF (.vobj [([98], .vint 200), ([99], .vstr [104, 105])]) = true ∧
    ∃ F V',
      cppToFfi (.vobj [([98], .vint 200), ([99], .vstr [104, 105])]) = .ok F ∧
      ffiToCpp F = .ok V' ∧
      compactText serModel V' =
        compactText serModel (.vobj [([98], .vint 200), ([99], .vstr [104, 105])]) ∧
      compactText serModel (.vobj [([98], .vint 200), ([99], .vstr [104, 105])]) =
        .ok (serModel F) := by
  have hv : validValueNF (.vobj [([98], .vint 200), ([99], .vstr [104, 105])]) = true := by
    simp [validValueNF, validValueNFEntries, keysSorted, listLt, noNul,
      charCountAux, codeWidthAux]
  exact ⟨hv, c1_round_trip_compact serModel _ hv⟩

end Gbln
